import Mathlib

/-!
Verification development for the tabular data-profiling / lightweight-ML
pipeline (type inference, cleaning engine, quality profiler, correlation
analysis, model training aggregation).

The TypeScript sources are shallowly embedded:

* JavaScript runtime values appearing in dataset cells are modelled by the
  inductive type `Value` (numbers as exact rationals, `NaN` as a separate
  constructor, strings, booleans, `null`, `undefined`).
* Host primitives (`Number(...)` coercion, `String(...)` conversion,
  `Date.parse`) are modelled by executable Lean functions on the fragment of
  inputs exercised by the repository's data paths; each model is documented
  at its definition.
* Library calls into `simple-statistics` (`quantile`, `median`, `mode`,
  `sampleCorrelation`) are embedded from that library's published
  implementation, which the repository vendors as a dependency.
* JavaScript floating point arithmetic is modelled by exact arithmetic on
  `ℚ` (and `ℝ` where `Math.sqrt` forces irrational values).
-/

/- Batteries marks the arithmetic of `Rat` `@[irreducible]` as an
elaboration hint.  Concrete dataset computations in this development are
settled by `decide`, which needs those definitions to reduce; restoring
the default reducibility changes no definitional equality, only the
hint. -/
set_option allowUnsafeReducibility true
attribute [semireducible] Rat.mul Rat.add Rat.sub Rat.inv Rat.div

/-- A JavaScript runtime value as it can occur in a dataset cell.
`num` carries an exact rational; JavaScript's `NaN` is the separate
constructor `nan` (it is not a rational and compares unequal to itself
under `===`, which `valueStrictEq` models). -/
inductive Value where
  | num (q : ℚ)
  | nan
  | str (s : String)
  | bool (b : Bool)
  | null
  | undef
deriving DecidableEq, Repr

/-- JavaScript truthiness: `!v` is true exactly for `0`, `NaN`, `""`,
`false`, `null`, `undefined`. -/
def jsFalsy : Value → Bool
  | .num q => q = 0
  | .nan => true
  | .str s => s = ""
  | .bool b => !b
  | .null => true
  | .undef => true

/-- JavaScript strict equality `===` on our value fragment: structural
equality except that `NaN === NaN` is false. -/
def valueStrictEq : Value → Value → Bool
  | .nan, _ => false
  | _, .nan => false
  | a, b => a = b

/-- Numeric value of a decimal digit character. -/
def charDigit (c : Char) : Option ℕ :=
  if c.isDigit then some (c.toNat - 48) else none

/-- Reads a list of characters as a base-10 natural number; `none` when any
character is not a digit, `some 0` for the empty list (callers distinguish
emptiness themselves). -/
def digitsToNat (cs : List Char) : Option ℕ :=
  cs.foldl (fun acc c => acc.bind fun a => (charDigit c).map fun d => 10 * a + d) (some 0)

/-- Parses an unsigned decimal literal (`123`, `45.6`, `.5`, `7.`), the
shape accepted by JavaScript `Number` for plain decimal strings.  `none`
models `NaN`. -/
def parseUnsignedDec (cs : List Char) : Option ℚ :=
  let ip := cs.takeWhile Char.isDigit
  let rest := cs.dropWhile Char.isDigit
  match rest with
  | [] =>
      if ip.isEmpty then none
      else (digitsToNat ip).map fun n => (n : ℚ)
  | '.' :: fp =>
      if fp.all Char.isDigit then
        if ip.isEmpty && fp.isEmpty then none
        else
          (digitsToNat ip).bind fun i =>
            (digitsToNat fp).map fun f =>
              (i : ℚ) + (f : ℚ) / (10 : ℚ) ^ fp.length
      else none
  | _ => none

/-- Whitespace trimming on the character list (the `Number` coercion and
`String.prototype.trim` trim leading and trailing whitespace). -/
def trimChars (s : String) : String :=
  String.mk (((s.toList.dropWhile Char.isWhitespace).reverse.dropWhile Char.isWhitespace).reverse)

/-- `toLowerCase()` on the character list (ASCII case mapping suffices for
the token sets involved). -/
def lowerChars (s : String) : String :=
  String.mk (s.toList.map Char.toLower)

/-- Models the host coercion `Number(s)` for a string `s`, on the decimal
fragment used by this repository's data paths: surrounding whitespace is
trimmed, the empty string coerces to `0`, an optionally signed decimal
literal coerces to its value, anything else is `NaN` (`none`).
(Hexadecimal, exponent and `Infinity` forms are outside the modelled
fragment; no input in this development uses them.) -/
def jsStrToNum (s : String) : Option ℚ :=
  let t := trimChars s
  if t = "" then some 0
  else
    match t.toList with
    | '+' :: rest => parseUnsignedDec rest
    | '-' :: rest => (parseUnsignedDec rest).map Neg.neg
    | cs => parseUnsignedDec cs

/-- Models `Number(v)` on a runtime value: numbers are themselves,
`NaN`/`undefined` give `NaN` (`none`), booleans give 1/0, `null` gives 0,
strings go through string coercion. -/
def jsToNumber : Value → Option ℚ
  | .num q => some q
  | .nan => none
  | .str s => jsStrToNum s
  | .bool b => some (if b then 1 else 0)
  | .null => some 0
  | .undef => none

/-- Models `s.replace(/[,$%\s]/g, '')`: removes commas, dollar signs,
percent signs and whitespace. -/
def stripNumericJunk (s : String) : String :=
  String.mk (s.toList.filter fun c => !(c = ',' || c = '$' || c = '%' || c.isWhitespace))

/-- The repository's idiom
`typeof val === 'string' ? Number(val.replace(/[,$%\s]/g, '')) : Number(val)`:
strings are stripped of separators before coercion, other values are
coerced directly. -/
def parseStripped : Value → Option ℚ
  | .str s => jsStrToNum (stripNumericJunk s)
  | v => jsToNumber v

/-- Renders a rational the way JavaScript `String(x)` renders the numbers
occurring in this development: exact shortest decimal notation for numbers
with a terminating decimal expansion (denominator dividing a power of 10),
and a fraction fallback outside that fragment (never reached by the inputs
considered here, where all rendered numbers terminate). -/
def ratDecimalString (q : ℚ) : String :=
  if q = 0 then "0"
  else
    let sign := if q < 0 then "-" else ""
    let a := |q|
    match (List.range 41).find? (fun k => (a * (10 : ℚ) ^ k).den = 1) with
    | some k =>
        let m := (a * (10 : ℚ) ^ k).num.toNat
        if k = 0 then sign ++ toString m
        else
          let s := toString m
          let s := if s.length ≤ k then String.mk (List.replicate (k + 1 - s.length) '0') ++ s else s
          sign ++ String.mk (s.toList.take (s.length - k)) ++ "." ++
            String.mk (s.toList.drop (s.length - k))
    | none => sign ++ toString a.num.natAbs ++ "/" ++ toString a.den

/-- Models `String(v)` for each runtime value. -/
def jsStringOfValue : Value → String
  | .num q => ratDecimalString q
  | .nan => "NaN"
  | .str s => s
  | .bool b => if b then "true" else "false"
  | .null => "null"
  | .undef => "undefined"

/-- Stable ascending insertion of a rational into a sorted list; used to
model the numeric sort `x.slice().sort((a, b) => a - b)` performed by
`simple-statistics` before computing order statistics. -/
def insertAsc (a : ℚ) : List ℚ → List ℚ
  | [] => [a]
  | b :: t => if a ≤ b then a :: b :: t else b :: insertAsc a t

/-- Ascending sort of a list of rationals (insertion sort; any correct
sort agrees on `ℚ`, where equal elements are indistinguishable). -/
def sortAsc : List ℚ → List ℚ
  | [] => []
  | a :: t => insertAsc a (sortAsc t)

/-- The `simple-statistics` `quantile(x, p)` function, specialised to the
quarters `p = k/4` used by the repository (`0.25`, `0.5`, `0.75`).  The
library sorts the sample and then, writing `idx = n·p`, returns
`x[ceil(idx) - 1]` when `idx` is fractional, the average
`(x[idx - 1] + x[idx]) / 2` when `idx` is integral and `n` is even, and
`x[idx]` when `idx` is integral and `n` is odd.  With `p = k/4`, `idx` is
fractional exactly when `(n·k) % 4 ≠ 0` and `ceil(idx) = (n·k + 3) / 4` in
natural division. -/
def ssQuantile4 (x : List ℚ) (k : ℕ) : ℚ :=
  let s := sortAsc x
  let n := s.length
  if n = 0 then 0
  else if (n * k) % 4 ≠ 0 then s.getD ((n * k + 3) / 4 - 1) 0
  else if n % 2 = 0 then (s.getD ((n * k) / 4 - 1) 0 + s.getD ((n * k) / 4) 0) / 2
  else s.getD ((n * k) / 4) 0

/-- The `simple-statistics` `median(x) = quantile(x, 0.5)`. -/
def ssMedian (x : List ℚ) : ℚ := ssQuantile4 x 2

/-- Run-scanning core of `simple-statistics` `modeSorted`: walks the list
keeping the current run (`last`, `seenThis`) and the best run so far
(`value`, `maxSeen`); a run wins only with a strictly greater count, so the
earliest maximal run is returned.  Equality between elements is JavaScript
`!==`, i.e. `valueStrictEq` (under which `NaN` never extends a run). -/
def modeScan (value last : Value) (maxSeen seenThis : ℕ) : List Value → Value
  | [] => if seenThis > maxSeen then last else value
  | c :: t =>
      if valueStrictEq c last then modeScan value last maxSeen (seenThis + 1) t
      else if seenThis > maxSeen then modeScan last c seenThis 1 t
      else modeScan value c maxSeen 1 t

/-- The `simple-statistics` `mode(x) = modeSorted(numericSort(x))` as the
cleaning engine applies it to a list of runtime values.  `numericSort` uses
the comparator `(a, b) => a - b`: on an all-number list this sorts
ascending; on any other list every comparison yields `NaN`, which the sort
treats as 0, leaving the order unchanged (V8's stable sort).  `modeSorted`
then returns the leader of the earliest longest run of strictly-equal
consecutive elements. -/
def jsMode (l : List Value) : Value :=
  let sorted :=
    if l.all (fun v => match v with | .num _ => true | _ => false) then
      (sortAsc (l.filterMap fun v => match v with | .num q => some q | _ => none)).map Value.num
    else l
  match sorted with
  | [] => Value.nan
  | c :: t => modeScan Value.nan c 0 1 t

/-- Column type vocabulary of the pipeline. -/
inductive ColType where
  | numeric
  | categorical
  | datetime
  | boolean
deriving DecidableEq, Repr

/-- A dataset row, aligned positionally with the column-name list: the cell
of column `j` is the `j`-th entry.  A row shorter than the column list
models a record missing those keys (reading them yields `undefined`). -/
abbrev Row := List Value

/-- Reads cell `j` of a row; an absent key reads as `undefined`, as in
JavaScript. -/
def cellAt (r : Row) (j : ℕ) : Value := r.getD j (.undef)

/-- Writes cell `j` of a row, padding with `undefined` when the row was
shorter (JavaScript assignment to an absent key creates it). -/
def setCellAt (r : Row) (j : ℕ) (v : Value) : Row :=
  if j < r.length then r.set j v
  else r ++ List.replicate (j - r.length) Value.undef ++ [v]

/-- Column-type lookup `types[column]`; `none` models `undefined` (no such
key). -/
def lookupCT (types : List (String × ColType)) (c : String) : Option ColType :=
  (types.find? fun p => p.1 = c).map (·.2)

/-- Type of column `j` under a positional column list. -/
def colTypeAt (types : List (String × ColType)) (cols : List String) (j : ℕ) : Option ColType :=
  lookupCT types (cols.getD j "")

/-- Token of a date-shape pattern: a run of digits with a length range, or
a literal character. -/
inductive DTok where
  | d (lo hi : ℕ)
  | lit (c : Char)

/-- Matches a sequence of date-shape tokens against the front of a
character list, returning the remainder.  A digit run consumes all leading
digits and checks the count is in range — equivalent to the regexes
involved, whose digit runs are always followed by a non-digit or the end. -/
def dtokMatch : List DTok → List Char → Option (List Char)
  | [], cs => some cs
  | .d lo hi :: t, cs =>
      let ds := cs.takeWhile Char.isDigit
      if lo ≤ ds.length ∧ ds.length ≤ hi then dtokMatch t (cs.drop ds.length) else none
  | .lit c :: t, x :: rest => if x = c then dtokMatch t rest else none
  | .lit _ :: _, [] => none

/-- Whole-string match (regex anchored with `^...$`). -/
def dtokAnchored (p : List DTok) (cs : List Char) : Bool :=
  dtokMatch p cs = some []

/-- Prefix match (regex anchored with `^...` only). -/
def dtokPrefix (p : List DTok) (cs : List Char) : Bool :=
  (dtokMatch p cs).isSome

/-- The seven date regexes of `detectAdvancedDataTypes`:
`^\d{4}-\d{2}-\d{2}$`, `^\d{2}/\d{2}/\d{4}$`, `^\d{1,2}/\d{1,2}/\d{4}$`,
`^\d{4}/\d{2}/\d{2}$`, `^\d{2}-\d{2}-\d{4}$`,
`^\d{4}-\d{2}-\d{2}T\d{2}:\d{2}:\d{2}` (prefix), `^\d{2}/\d{2}/\d{2}$`. -/
def datePatternMatch (s : String) : Bool :=
  let cs := s.toList
  dtokAnchored [.d 4 4, .lit '-', .d 2 2, .lit '-', .d 2 2] cs ||
  dtokAnchored [.d 2 2, .lit '/', .d 2 2, .lit '/', .d 4 4] cs ||
  dtokAnchored [.d 1 2, .lit '/', .d 1 2, .lit '/', .d 4 4] cs ||
  dtokAnchored [.d 4 4, .lit '/', .d 2 2, .lit '/', .d 2 2] cs ||
  dtokAnchored [.d 2 2, .lit '-', .d 2 2, .lit '-', .d 4 4] cs ||
  dtokPrefix [.d 4 4, .lit '-', .d 2 2, .lit '-', .d 2 2, .lit 'T',
              .d 2 2, .lit ':', .d 2 2, .lit ':', .d 2 2] cs ||
  dtokAnchored [.d 2 2, .lit '/', .d 2 2, .lit '/', .d 2 2] cs

/-- Models the host predicate `!isNaN(Date.parse(v)) && Date.parse(v) > 0`
on the fragment of strings this development evaluates it at: the explicit
date shapes above, plus a bare four-digit year (which `Date.parse`
accepts).  Strings without digits (free text, boolean tokens) parse to
`NaN` and yield `false`.  Both the source-side and the spec-side type
detectors share this model, so theorems comparing them do not depend on
its exact extension. -/
def jsDateParsePositive (s : String) : Bool :=
  datePatternMatch s || dtokAnchored [.d 4 4] s.toList

/-- The sampling filter of `detectAdvancedDataTypes`:
`v != null && v !== '' && v !== 'null' && v !== 'undefined'`
(loose `!= null` also drops `undefined`). -/
def sampleFilterKeep (v : Value) : Bool :=
  !(v = .null || v = .undef || v = .str "" || v = .str "null" || v = .str "undefined")

/-- The sampled non-empty values of column `j`: first
`min(1000, data.length)` rows, filtered. -/
def sampleValuesOf (rows : List Row) (j : ℕ) : List Value :=
  ((rows.take (min 1000 rows.length)).map (cellAt · j)).filter sampleFilterKeep

/-- Boolean detection predicate: an actual boolean, or a string in
`['true','false','yes','no','1','0','y','n']` after lowercasing. -/
def isBooleanToken (v : Value) : Bool :=
  match v with
  | .bool _ => true
  | .str s => ["true", "false", "yes", "no", "1", "0", "y", "n"].contains (lowerChars s)
  | _ => false

/-- Numeric detection predicate: `typeof v === 'number'` (which includes
`NaN`), or a string whose separator-stripped form is a nonempty numeric
literal. -/
def isNumericToken (v : Value) : Bool :=
  match v with
  | .num _ => true
  | .nan => true
  | .str s =>
      let c := stripNumericJunk s
      (jsStrToNum c).isSome && c ≠ ""
  | _ => false

/-- Datetime detection predicate: a string matching a date pattern or
accepted by the generic date parser.  (`v instanceof Date` is false on our
value fragment, which has no Date objects.) -/
def isDateToken (v : Value) : Bool :=
  match v with
  | .str s => datePatternMatch s || jsDateParsePositive s
  | _ => false

/-- Per-column classifier of `detectAdvancedDataTypes`: fixed order
boolean → numeric → datetime → categorical, with the source's strict
ratio comparisons (`count/n > 0.8` is the exact integer test
`5·count > 4·n`, and `> 0.7` is `10·count > 7·n`). -/
def detectColumnType (vs : List Value) : ColType :=
  if vs.length = 0 then .categorical
  else if (vs.filter isBooleanToken).length * 5 > vs.length * 4 then .boolean
  else if (vs.filter isNumericToken).length * 5 > vs.length * 4 then .numeric
  else if (vs.filter isDateToken).length * 10 > vs.length * 7 then .datetime
  else .categorical

/-- The full `detectAdvancedDataTypes`: one classification per column from
that column's sampled values. -/
def detectAdvancedDataTypes (rows : List Row) (cols : List String) : List (String × ColType) :=
  (List.range cols.length).map fun j =>
    (cols.getD j "", detectColumnType (sampleValuesOf rows j))

/-- Modelled from the spec: per-column classification as the claim states
it, with *at least* thresholds ("classified boolean if at least 80% …
numeric if at least 80% … datetime if at least 70%"), expressed with exact
rational ratios. -/
def specDetectAtLeast (vs : List Value) : ColType :=
  if vs.length = 0 then .categorical
  else if (4 : ℚ) / 5 ≤ ((vs.filter isBooleanToken).length : ℚ) / (vs.length : ℚ) then .boolean
  else if (4 : ℚ) / 5 ≤ ((vs.filter isNumericToken).length : ℚ) / (vs.length : ℚ) then .numeric
  else if (7 : ℚ) / 10 ≤ ((vs.filter isDateToken).length : ℚ) / (vs.length : ℚ) then .datetime
  else .categorical

/-- Modelled from the spec, amended: the same fixed-order classification
with *strictly more than* thresholds, expressed with exact rational
ratios. -/
def specDetectStrict (vs : List Value) : ColType :=
  if vs.length = 0 then .categorical
  else if (4 : ℚ) / 5 < ((vs.filter isBooleanToken).length : ℚ) / (vs.length : ℚ) then .boolean
  else if (4 : ℚ) / 5 < ((vs.filter isNumericToken).length : ℚ) / (vs.length : ℚ) then .numeric
  else if (7 : ℚ) / 10 < ((vs.filter isDateToken).length : ℚ) / (vs.length : ℚ) then .datetime
  else .categorical

/-- The missing-cell test of the cleaning engine's imputation step,
`!row[column] || row[column] === '' || row[column] === null` (the two
strict comparisons are subsumed by falsiness). -/
def imputeMissCond (v : Value) : Bool :=
  jsFalsy v || v = .str "" || v = .null

/-- The numeric valid values collected for median imputation:
`cleanedData.map(row => Number(row[column])).filter(v => !isNaN(v) && isFinite(v))`.
Note there is no separator stripping here, and the falsy cells themselves
contribute (`Number(null)`, `Number('')`, `Number(false)` are all `0`). -/
def imputeNumericValid (rows : List Row) (j : ℕ) : List ℚ :=
  rows.filterMap fun r => jsToNumber (cellAt r j)

/-- The valid values collected for mode imputation:
`.filter(v => v != null && v !== '')` (loose `!= null` drops `undefined`
too). -/
def imputeModeValid (rows : List Row) (j : ℕ) : List Value :=
  (rows.map fun r => cellAt r j).filter fun v => !(v = .null || v = .undef || v = .str "")

/-- Imputation of one column (step 1 of `performAdvancedCleaning`): if any
cell is falsy, numeric columns overwrite the falsy cells with the median
of the `Number`-coerced column, all other columns with the mode of the
non-null non-empty values; when no valid values exist nothing happens. -/
def imputeColumn (res : List Row) (j : ℕ) (ty : Option ColType) : List Row :=
  if res.any fun r => imputeMissCond (cellAt r j) then
    if ty = some .numeric then
      if (imputeNumericValid res j).isEmpty then res
      else
        res.map fun r =>
          if imputeMissCond (cellAt r j) then
            setCellAt r j (.num (ssMedian (imputeNumericValid res j)))
          else r
    else
      if (imputeModeValid res j).isEmpty then res
      else
        res.map fun r =>
          if imputeMissCond (cellAt r j) then setCellAt r j (jsMode (imputeModeValid res j))
          else r
  else res

/-- Step 1 of `performAdvancedCleaning`: impute each column in column
order (columns are independent: each pass writes only its own column). -/
def imputeStep (rows : List Row) (cols : List String) (types : List (String × ColType)) : List Row :=
  (List.range cols.length).foldl (fun acc j => imputeColumn acc j (colTypeAt types cols j)) rows

/-- The duplicate-detection key of a row:
`columns.map(col => String(row[col] || '')).join('|')` — falsy cells
render as the empty string. -/
def rowKey (cols : List String) (r : Row) : String :=
  String.intercalate "|" ((List.range cols.length).map fun j =>
    jsStringOfValue (if jsFalsy (cellAt r j) then .str "" else cellAt r j))

/-- Worker for duplicate removal: keeps a row exactly when its key has not
been seen yet, preserving order. -/
def dedupGo (cols : List String) (seen : List String) : List Row → List Row
  | [] => []
  | r :: t =>
      let k := rowKey cols r
      if seen.contains k then dedupGo cols seen t
      else r :: dedupGo cols (k :: seen) t

/-- Step 2 of `performAdvancedCleaning`: remove duplicate rows, keeping
the first occurrence of each key. -/
def dedupStep (rows : List Row) (cols : List String) : List Row :=
  dedupGo cols [] rows

/-- The separator-stripped valid values of column `j` that the capping
step measures. -/
def capValuesOf (rows : List Row) (j : ℕ) : List ℚ :=
  rows.filterMap fun r => parseStripped (cellAt r j)

/-- Lower IQR fence `Q1 - 1.5 * IQR` used by the capping step. -/
def capLowerOf (values : List ℚ) : ℚ :=
  ssQuantile4 values 1 - 3 / 2 * (ssQuantile4 values 3 - ssQuantile4 values 1)

/-- Upper IQR fence `Q3 + 1.5 * IQR` used by the capping step. -/
def capUpperOf (values : List ℚ) : ℚ :=
  ssQuantile4 values 3 + 3 / 2 * (ssQuantile4 values 3 - ssQuantile4 values 1)

/-- Outlier capping of one numeric column (step 3): collect the
separator-stripped valid values; with more than 10 of them compute the IQR
fences from `quantile(·, 0.25)` and `quantile(·, 0.75)` and cap every cell
whose *unstripped* `Number` coercion lands outside them (the source reads
`Number(row[column])` here, without the stripping used to build
`values`). -/
def capColumn (res : List Row) (j : ℕ) : List Row :=
  if (capValuesOf res j).length > 10 then
    res.map fun r =>
      match jsToNumber (cellAt r j) with
      | some v =>
          if v < capLowerOf (capValuesOf res j) then
            setCellAt r j (.num (capLowerOf (capValuesOf res j)))
          else if v > capUpperOf (capValuesOf res j) then
            setCellAt r j (.num (capUpperOf (capValuesOf res j)))
          else r
      | none => r
  else res

/-- Step 3 of `performAdvancedCleaning`: cap outliers in every numeric
column. -/
def capStep (rows : List Row) (cols : List String) (types : List (String × ColType)) : List Row :=
  (List.range cols.length).foldl
    (fun acc j => if colTypeAt types cols j = some .numeric then capColumn acc j else acc) rows

/-- Type conversion of one column (step 4): numeric columns convert string
cells through stripping and `Number` (an unparseable string becomes
`NaN`); boolean columns replace every cell by the boolean
`['true','yes','1','y'].includes(String(cell).toLowerCase())`. -/
def convertColumn (res : List Row) (j : ℕ) (ty : Option ColType) : List Row :=
  if ty = some .numeric then
    res.map fun r =>
      match cellAt r j with
      | .str s =>
          setCellAt r j
            (match jsStrToNum (stripNumericJunk s) with
             | some q => .num q
             | none => .nan)
      | _ => r
  else if ty = some .boolean then
    res.map fun r =>
      setCellAt r j (.bool (["true", "yes", "1", "y"].contains (lowerChars (jsStringOfValue (cellAt r j)))))
  else res

/-- Step 4 of `performAdvancedCleaning`: convert every column according to
its type. -/
def convertStep (rows : List Row) (cols : List String) (types : List (String × ColType)) : List Row :=
  (List.range cols.length).foldl (fun acc j => convertColumn acc j (colTypeAt types cols j)) rows

/-- The cleaned dataset produced by `performAdvancedCleaning`:
impute → dedupe → cap outliers → convert types, in the source's fixed
order.  (The source also returns an ordered transformation log and fixed
`scalingMethod`/`encodingMethod` tags; the claims under verification
concern the data, so only the data is modelled.) -/
def performAdvancedCleaning (rows : List Row) (cols : List String)
    (types : List (String × ColType)) : List Row :=
  convertStep (capStep (dedupStep (imputeStep rows cols types) cols) cols types) cols types

/-- Whether position `i` holds the first occurrence of its key. -/
def isFirstOcc (keys : List String) (i : ℕ) : Bool :=
  !((keys.take i).contains (keys.getD i ""))

/-- Number of first occurrences strictly before position `i` — the
position a surviving row occupies after duplicate removal. -/
def rankOf (keys : List String) (i : ℕ) : ℕ :=
  ((List.range i).filter (isFirstOcc keys)).length

/-- The caller's row objects after `performAdvancedCleaning` returns.
`performAdvancedCleaning` copies only the outer array (`[...data]`), so
the caller's array and `cleanedData` share the row objects, and every
`row[column] = …` assignment is visible through the caller's array:
step 1 (imputation) runs while `cleanedData` still references *all* rows,
so every row receives its imputation writes; duplicate removal then drops
later references, so steps 3–4 (capping, conversion) write only to the
surviving rows, whose final state is their value in the cleaned output. -/
def inputRowsAfterCleaning (rows : List Row) (cols : List String)
    (types : List (String × ColType)) : List Row :=
  let imputed := imputeStep rows cols types
  let keys := imputed.map (rowKey cols)
  let final := convertStep (capStep (dedupStep imputed cols) cols types) cols types
  (List.range rows.length).map fun i =>
    if isFirstOcc keys i then final.getD (rankOf keys i) [] else imputed.getD i []

/-- The missing-cell test of the quality profiler
(`calculateAdvancedSummary`):
`!row[col] || row[col] === '' || row[col] === null || row[col] === undefined`
(the three strict comparisons are subsumed by the falsiness test). -/
def missingCellCond (v : Value) : Bool :=
  jsFalsy v || v = .str "" || v = .null || v = (.undef)

/-- The profiler's total missing-cell count: for every row, count the
columns whose cell satisfies the missing test, and sum over rows. -/
def missingValuesCount (rows : List Row) (cols : List String) : ℕ :=
  (rows.map fun r =>
    ((List.range cols.length).filter fun j => missingCellCond (cellAt r j)).length).sum

/-- All cells of the dataset, row-major. -/
def allCells (rows : List Row) (cols : List String) : List Value :=
  (rows.map fun r => (List.range cols.length).map (cellAt r)).flatten

/-- Modelled from the spec: a cell is missing when its value is `null`,
`undefined`, the empty string, or one of the literal strings `"null"` /
`"undefined"` — the claim's definition of missing. -/
def specMissingCond (v : Value) : Bool :=
  v = .null || v = .undef || v = .str "" || v = .str "null" || v = .str "undefined"

/-- Modelled from the spec: total missing-cell count under the claim's
definition of missing. -/
def specMissingCount (rows : List Row) (cols : List String) : ℕ :=
  (allCells rows cols).countP specMissingCond

/-- The valid numeric values of a named column as the correlation code
collects them: `data.map(row => Number(row[col])).filter(v => !isNaN(v))`
(no separator stripping).  An absent column name reads every cell as
`undefined`, which filters out. -/
def colValues (rows : List Row) (cols : List String) (c : String) : List ℚ :=
  rows.filterMap fun r => jsToNumber (cellAt r (cols.indexOf c))

/-- Effective sample size of `calculateCorrelation` (part_008):
`n = Math.min(x.length, y.length)`. -/
def corrN (x y : List ℚ) : ℕ := min x.length y.length

/-- The means of `calculateCorrelation`: the source sums *all* elements of
each array but divides by `n = min(x.length, y.length)`
(`x.reduce((a, b) => a + b, 0) / n`). -/
def corrMeanX (x y : List ℚ) : ℚ := x.sum / (corrN x y : ℚ)

/-- See `corrMeanX`. -/
def corrMeanY (x y : List ℚ) : ℚ := y.sum / (corrN x y : ℚ)

/-- The loop accumulators of `calculateCorrelation` over `i < n`:
`numerator += deltaX * deltaY`. -/
def corrNum (x y : List ℚ) : ℚ :=
  (((x.take (corrN x y)).zip (y.take (corrN x y))).map fun p =>
    (p.1 - corrMeanX x y) * (p.2 - corrMeanY x y)).sum

/-- `sumXSquared += deltaX * deltaX` over `i < n`. -/
def corrSxx (x y : List ℚ) : ℚ :=
  ((x.take (corrN x y)).map fun a => (a - corrMeanX x y) ^ 2).sum

/-- `sumYSquared += deltaY * deltaY` over `i < n`. -/
def corrSyy (x y : List ℚ) : ℚ :=
  ((y.take (corrN x y)).map fun b => (b - corrMeanY x y) ^ 2).sum

/-- `calculateCorrelation` of part_008: returns 0 when `n = 0`, and
`numerator / Math.sqrt(sumXSquared * sumYSquared)` with a 0 fallback when
the denominator is 0.  Since the radicand is a nonnegative rational,
`Math.sqrt(...) === 0` is exactly the decidable test
`sumXSquared * sumYSquared = 0`. -/
noncomputable def jsCorr (x y : List ℚ) : ℝ :=
  if corrN x y = 0 then 0
  else if corrSxx x y * corrSyy x y = 0 then 0
  else (corrNum x y : ℝ) / Real.sqrt ((corrSxx x y * corrSyy x y : ℚ) : ℝ)

/-- A correlation-matrix entry of `selectBestFeatures` (part_008): 0 when
either filtered column is empty, else `calculateCorrelation`. -/
noncomputable def selEntry (rows : List Row) (cols : List String) (c1 c2 : String) : ℝ :=
  let v1 := colValues rows cols c1
  let v2 := colValues rows cols c2
  if v1.isEmpty || v2.isEmpty then 0 else jsCorr v1 v2

/-- Mean of a list of rationals (`simple-statistics` `mean`). -/
def listMean (x : List ℚ) : ℚ := x.sum / (x.length : ℚ)

/-- The `simple-statistics` `sampleCovariance` sum-and-Bessel core
(defined for equal lengths ≥ 2; callers enforce the guards). -/
def sampleCov (x y : List ℚ) : ℚ :=
  ((x.zip y).map fun p => (p.1 - listMean x) * (p.2 - listMean y)).sum / ((x.length : ℚ) - 1)

/-- The `simple-statistics` `sampleVariance(x) = sampleCovariance(x, x)`. -/
def sampleVar (x : List ℚ) : ℚ := sampleCov x x

/-- The `simple-statistics`
`sampleCorrelation(x, y) = sampleCovariance(x, y) / sampleStd(x) / sampleStd(y)`.
`none` models the two undefined outcomes: the thrown exception (unequal
lengths, or fewer than two points) and the `NaN` produced by `0 / 0` when
a standard deviation is 0.  The zero test on the product of sample
variances is the exact decidable form of `sampleStd(x) * sampleStd(y) === 0`. -/
noncomputable def ssSampleCorrelation (x y : List ℚ) : Option ℝ :=
  if x.length = y.length ∧ 2 ≤ x.length then
    if sampleVar x * sampleVar y = 0 then none
    else some ((sampleCov x y : ℝ) / (Real.sqrt ((sampleVar x : ℚ) : ℝ) * Real.sqrt ((sampleVar y : ℚ) : ℝ)))
  else none

/-- A correlation-matrix entry of `calculateCorrelationMatrix`
(advancedDataAnalysis): each column filtered *independently*; with more
than one value on each side the entry is `sampleCorrelation` of the two
filtered lists, otherwise 1 on the diagonal and 0 off it. -/
noncomputable def summEntry (rows : List Row) (cols : List String) (c1 c2 : String) : Option ℝ :=
  let v1 := colValues rows cols c1
  let v2 := colValues rows cols c2
  if 1 < v1.length ∧ 1 < v2.length then ssSampleCorrelation v1 v2
  else some (if c1 = c2 then 1 else 0)

/-- The row-aligned value pairs of two columns over exactly the rows in
which both columns hold valid numbers (pairwise-complete deletion). -/
def bothValidPairs (rows : List Row) (cols : List String) (c1 c2 : String) : List (ℚ × ℚ) :=
  rows.filterMap fun r =>
    match jsToNumber (cellAt r (cols.indexOf c1)), jsToNumber (cellAt r (cols.indexOf c2)) with
    | some a, some b => some (a, b)
    | _, _ => none

/-- Modelled from the spec: the correlation entry the claim prescribes —
the Pearson sample correlation computed from the pairwise-complete
row-aligned pairs. -/
noncomputable def specPairwiseEntry (rows : List Row) (cols : List String) (c1 c2 : String) : Option ℝ :=
  ssSampleCorrelation ((bothValidPairs rows cols c1 c2).map Prod.fst)
    ((bothValidPairs rows cols c1 c2).map Prod.snd)

/-- A trained-model record as aggregated by `trainModels`; the metric
fields not consulted by aggregation (ROC-AUC proxy, confusion matrix,
feature importances, predictions, training time) are omitted from the
model, having no bearing on the verified properties; precision and recall
carry a `Score` suffix for Lean parsing reasons. -/
structure MLModelResult where
  name : String
  accuracy : ℚ
  precisionScore : ℚ
  recallScore : ℚ
  f1Score : ℚ
  recommended : Bool
deriving DecidableEq, Repr, Inhabited

/-- The numeric feature columns, in column order:
`columns.filter(col => types[col] === 'numeric')`. -/
def numericColumns (cols : List String) (types : List (String × ColType)) : List String :=
  cols.filter fun c => lookupCT types c = some ColType.numeric

/-- The raw feature matrix of `preprocessData`: every row mapped over the
numeric columns, `Number`-coerced with a 0 fallback for `NaN`. -/
def rawFeatureMatrix (rows : List Row) (cols : List String)
    (types : List (String × ColType)) : List (List ℚ) :=
  rows.map fun r =>
    (numericColumns cols types).map fun c =>
      match jsToNumber (cellAt r (cols.indexOf c)) with
      | some q => q
      | none => 0

/-- Per-feature mean used by `normalizeFeatures`. -/
def featureMean (X : List (List ℚ)) (j : ℕ) : ℚ :=
  (X.map fun row => row.getD j 0).sum / (X.length : ℚ)

/-- Per-feature population variance used by `normalizeFeatures`. -/
def featureVar (X : List (List ℚ)) (j : ℕ) : ℚ :=
  (X.map fun row => (row.getD j 0 - featureMean X j) ^ 2).sum / (X.length : ℚ)

/-- `normalizeFeatures`: centre each feature and divide by
`Math.sqrt(variance) || 1`; since the variance is a nonnegative rational,
the `|| 1` fallback fires exactly when the variance is 0. -/
noncomputable def normalizeFeatures (X : List (List ℚ)) : List (List ℝ) :=
  if X.isEmpty then []
  else
    X.map fun row =>
      row.mapIdx fun j v =>
        ((v - featureMean X j : ℚ) : ℝ) /
          (if featureVar X j = 0 then 1 else Real.sqrt ((featureVar X j : ℚ) : ℝ))

/-- The synthetic binary label of `preprocessData`: `row_index % 2`. -/
def labelsFor (rows : List Row) : List ℕ :=
  (List.range rows.length).map fun i => i % 2

/-- The preprocessed (normalized) feature matrix fed to the models. -/
noncomputable def preprocessX (rows : List Row) (cols : List String)
    (types : List (String × ColType)) : List (List ℝ) :=
  normalizeFeatures (rawFeatureMatrix rows cols types)

/-- `Math.floor(X.length * 0.8)`, exact in the modelled arithmetic. -/
def splitIndex (n : ℕ) : ℕ := 4 * n / 5

/-- `bestModel.recommended = true`: the JavaScript reduce
`models.reduce((best, cur) => cur.accuracy > best.accuracy ? cur : best)`
replaces the incumbent only on a *strict* improvement, so it selects the
first list position whose accuracy is greater than or equal to the
accuracy of every later position — the first occurrence of the maximal
accuracy.  That selected model object alone is flagged
`recommended = true`; every other entry is untouched. -/
def markRecommended : List MLModelResult → List MLModelResult
  | [] => []
  | a :: t =>
      if ∀ m ∈ t, m.accuracy ≤ a.accuracy then { a with recommended := true } :: t
      else a :: markRecommended t

/-- Stable descending insertion: the new element goes in front of the
first strictly smaller accuracy, after any equal accuracies. -/
def insertByAccDesc (a : MLModelResult) : List MLModelResult → List MLModelResult
  | [] => [a]
  | b :: t => if b.accuracy ≤ a.accuracy then a :: b :: t else b :: insertByAccDesc a t

/-- Stable descending sort by accuracy, modelling
`models.sort((a, b) => b.accuracy - a.accuracy)` (ECMAScript `sort` is
stable; any stable descending sort produces this list). -/
def sortByAccDesc : List MLModelResult → List MLModelResult
  | [] => []
  | a :: t => insertByAccDesc a (sortByAccDesc t)

/-- The aggregation tail of `trainModels`: when at least one model was
trained, flag the reduce-selected model as recommended, then sort
descending by accuracy. -/
def aggregateModels (ms : List MLModelResult) : List MLModelResult :=
  if ms.isEmpty then ms else sortByAccDesc (markRecommended ms)

/-- `trainModels`, with the three try/catch model-training blocks
abstracted as `builder`: the blocks' randomized internals (bootstrap
sampling, unseeded importances) determine which records end up in
`models`, but every record is pushed with `recommended: false` — the
claims quantify over all builder outcomes with that property.
The guard and the aggregation are embedded exactly: an empty or
zero-column feature matrix short-circuits to `[]`; otherwise the first
80% of rows train and the rest test. -/
noncomputable def trainModels
    (builder : List (List ℝ) → List ℕ → List (List ℝ) → List ℕ → List String → List MLModelResult)
    (rows : List Row) (cols : List String) (types : List (String × ColType)) :
    List MLModelResult :=
  if (preprocessX rows cols types).length = 0 ∨ ((preprocessX rows cols types).headD []).length = 0
  then []
  else
    aggregateModels
      (builder ((preprocessX rows cols types).take (splitIndex (preprocessX rows cols types).length))
        ((labelsFor rows).take (splitIndex (preprocessX rows cols types).length))
        ((preprocessX rows cols types).drop (splitIndex (preprocessX rows cols types).length))
        ((labelsFor rows).drop (splitIndex (preprocessX rows cols types).length))
        (numericColumns cols types))

/-- The values of column `j`, in row order. -/
def colProj (rows : List Row) (j : ℕ) : List Value :=
  rows.map fun r => cellAt r j

/-- Action of `imputeColumn` on its own column, expressed on the column
alone (step 1 touches no other column). -/
def imputeColumnProj (col : List Value) (ty : Option ColType) : List Value :=
  if col.any imputeMissCond then
    if ty = some ColType.numeric then
      if (col.filterMap jsToNumber).isEmpty then col
      else
        col.map fun v =>
          if imputeMissCond v then .num (ssMedian (col.filterMap jsToNumber)) else v
    else
      if ((col.filter fun v => !(v = .null || v = .undef || v = .str "")).isEmpty) then col
      else
        col.map fun v =>
          if imputeMissCond v then
            jsMode (col.filter fun v2 => !(v2 = .null || v2 = .undef || v2 = .str ""))
          else v
  else col

/-- Action of `capColumn` on its own column, expressed on the column
alone (step 3 touches no other column). -/
def capColumnProj (col : List Value) : List Value :=
  if (col.filterMap parseStripped).length > 10 then
    col.map fun v =>
      match jsToNumber v with
      | some x =>
          if x < capLowerOf (col.filterMap parseStripped) then
            .num (capLowerOf (col.filterMap parseStripped))
          else if x > capUpperOf (col.filterMap parseStripped) then
            .num (capUpperOf (col.filterMap parseStripped))
          else v
      | none => v
  else col

/-- Whether a cell's numeric value under the given parse lies inside the
closed interval `[lo, hi]` (vacuously true when the parse yields `NaN`). -/
def valueInBounds (parse : Value → Option ℚ) (lo hi : ℚ) (v : Value) : Bool :=
  (parse v).all fun x => decide (lo ≤ x) && decide (x ≤ hi)

/-- Claim C2 as stated, at a given dataset: after the outlier-handling
step, the row count is unchanged and *every* numeric value of a treated
column — numeric under the same separator-stripping parse that defines
the column's valid values and its IQR fences — lies within those
fences. -/
@[reducible] def c2ClaimHolds (rows : List Row) (cols : List String)
    (types : List (String × ColType)) : Prop :=
  ∀ j < cols.length, colTypeAt types cols j = some ColType.numeric →
    10 < (capValuesOf rows j).length →
      (capStep rows cols types).length = rows.length ∧
      ∀ r ∈ capStep rows cols types,
        valueInBounds parseStripped (capLowerOf (capValuesOf rows j))
          (capUpperOf (capValuesOf rows j)) (cellAt r j) = true

/-- Concrete dataset refuting claim C2: eleven cells `1` and one cell
`"1,000"` in a numeric column.  The stripped parse of `"1,000"` is `1000`
and contributes to the fences (twelve valid values, Q1 = Q3 = 1, fences
`[1, 1]`), but `Number("1,000")` is `NaN`, so the capping loop skips the
cell. -/
def c2Rows : List Row :=
  List.replicate 11 [Value.num 1] ++ [[Value.str "1,000"]]

/-- First element of maximal accuracy (ties to the earlier position);
the head of any stable descending sort. -/
def firstMaxElt : List MLModelResult → MLModelResult
  | [] => default
  | a :: t =>
      if t.isEmpty then a
      else if (firstMaxElt t).accuracy ≤ a.accuracy then a else firstMaxElt t

/-- Concrete model list used to instantiate universally quantified
training-aggregation theorems (two models, as pushed by the source:
`recommended` initially false). -/
def wModels : List MLModelResult :=
  [⟨"Random Forest", 1 / 2, 0, 0, 0, false⟩, ⟨"Logistic Regression", 3 / 4, 0, 0, 0, false⟩]

/-- A concrete builder outcome (the randomized training internals are
quantified over; this is one instantiation). -/
def wBuilder : List (List ℝ) → List ℕ → List (List ℝ) → List ℕ → List String →
    List MLModelResult :=
  fun _ _ _ _ _ => wModels

theorem missingCellCond_eq_jsFalsy (v : Value) : missingCellCond v = jsFalsy v := by
  cases v <;> simp [missingCellCond, jsFalsy]

theorem missing_row_count (r : Row) (n : ℕ) :
    ((List.range n).filter fun j => missingCellCond (cellAt r j)).length =
      ((List.range n).map (cellAt r)).countP jsFalsy := by
  rw [List.countP_map, ← List.countP_eq_length_filter]
  refine List.countP_congr fun j _ => ?_
  simp [Function.comp, missingCellCond_eq_jsFalsy]

/-- C5 (counterexample): the claim's missing-cell criterion disagrees with
the profiler on the one-cell dataset whose cell is the number `0` — the
profiler counts it missing (falsy), the claim does not. -/
theorem c5_missing_count_counterexample :
    missingValuesCount [[Value.num 0]] ["a"] ≠ specMissingCount [[Value.num 0]] ["a"] := by
  decide

/-- C5 (amended): the profiler's total missing-cell count equals the
number of cells holding a falsy value (`null`, `undefined`, `""`, `0`,
`false`, `NaN`); the literal strings `"null"` / `"undefined"` are not
counted. -/
theorem c5_missing_count_is_falsy_count (rows : List Row) (cols : List String) :
    missingValuesCount rows cols = (allCells rows cols).countP jsFalsy := by
  unfold missingValuesCount allCells
  induction rows with
  | nil => rfl
  | cons r t ih =>
      simp only [List.map_cons, List.sum_cons, List.flatten_cons, List.countP_append]
      rw [missing_row_count, ih]


/-- C4 (counterexample): a five-value sample with exactly 80% boolean
tokens (`["true","true","true","true","x"]`) is classified `categorical`
by the source (strict `> 0.8`) but `boolean` by the claim's `≥ 80%`
reading. -/
theorem c4_threshold_counterexample :
    detectColumnType [.str "true", .str "true", .str "true", .str "true", .str "x"] ≠
      specDetectAtLeast [.str "true", .str "true", .str "true", .str "true", .str "x"] := by
  decide

/-- C3 (code bug): the cleaning engine is not idempotent.  On the
single-numeric-column dataset `[["0"], ["5"]]` the first run only
converts the strings, producing `[[0], [5]]`; the second run treats the
legitimate `0` as missing (falsiness test) and imputes the median `2.5`,
so cleaning its own output changes it. -/
theorem c3_cleaning_not_idempotent :
    performAdvancedCleaning
        (performAdvancedCleaning [[Value.str "0"], [Value.str "5"]] ["a"] [("a", ColType.numeric)])
        ["a"] [("a", ColType.numeric)] ≠
      performAdvancedCleaning [[Value.str "0"], [Value.str "5"]] ["a"] [("a", ColType.numeric)] := by
  decide

/-- C9 (code bug): `performAdvancedCleaning` copies only the outer array,
so the caller's row objects are mutated through the shared references: on
`[[""], [5]]` (numeric column) imputation writes the median `2.5` into the
caller's first row. -/
theorem c9_cleaning_mutates_input :
    inputRowsAfterCleaning [[Value.str ""], [Value.num 5]] ["a"] [("a", ColType.numeric)] ≠
      [[Value.str ""], [Value.num 5]] := by
  decide

/-- C2 (counterexample): in a numeric column holding eleven `1`s and one
`"1,000"`, the stripped parse `1000` is a valid value and fixes the fences
at `[1, 1]`, yet the capping loop reads `Number("1,000") = NaN` and leaves
the cell in place, outside the fences. -/
theorem c2_capping_counterexample :
    ¬ c2ClaimHolds c2Rows ["a"] [("a", ColType.numeric)] := by
  decide

theorem threshold45 (c n : ℕ) (hn : 0 < n) :
    ((4 : ℚ) / 5 < (c : ℚ) / (n : ℚ)) ↔ n * 4 < c * 5 := by
  rw [div_lt_div_iff₀ (by norm_num) (by exact_mod_cast hn)]
  constructor
  · intro h
    have h4 : ((n * 4 : ℕ) : ℚ) < ((c * 5 : ℕ) : ℚ) := by push_cast; linarith
    exact_mod_cast h4
  · intro h
    have h4 : ((n * 4 : ℕ) : ℚ) < ((c * 5 : ℕ) : ℚ) := by exact_mod_cast h
    push_cast at h4
    linarith

theorem threshold710 (c n : ℕ) (hn : 0 < n) :
    ((7 : ℚ) / 10 < (c : ℚ) / (n : ℚ)) ↔ n * 7 < c * 10 := by
  rw [div_lt_div_iff₀ (by norm_num) (by exact_mod_cast hn)]
  constructor
  · intro h
    have h4 : ((n * 7 : ℕ) : ℚ) < ((c * 10 : ℕ) : ℚ) := by push_cast; linarith
    exact_mod_cast h4
  · intro h
    have h4 : ((n * 7 : ℕ) : ℚ) < ((c * 10 : ℕ) : ℚ) := by exact_mod_cast h
    push_cast at h4
    linarith

theorem detectColumnType_eq_specStrict (vs : List Value) :
    detectColumnType vs = specDetectStrict vs := by
  unfold detectColumnType specDetectStrict
  by_cases h0 : vs.length = 0
  · simp [h0]
  · have hn : 0 < vs.length := Nat.pos_of_ne_zero h0
    rw [if_neg h0, if_neg h0]
    by_cases hb : vs.length * 4 < (vs.filter isBooleanToken).length * 5
    · rw [if_pos hb, if_pos ((threshold45 _ _ hn).mpr hb)]
    · rw [if_neg hb, if_neg (fun h => hb ((threshold45 _ _ hn).mp h))]
      by_cases hq : vs.length * 4 < (vs.filter isNumericToken).length * 5
      · rw [if_pos hq, if_pos ((threshold45 _ _ hn).mpr hq)]
      · rw [if_neg hq, if_neg (fun h => hq ((threshold45 _ _ hn).mp h))]
        by_cases hd : vs.length * 7 < (vs.filter isDateToken).length * 10
        · rw [if_pos hd, if_pos ((threshold710 _ _ hn).mpr hd)]
        · rw [if_neg hd, if_neg (fun h => hd ((threshold710 _ _ hn).mp h))]

/-- C4 (amended): per-column type inference applies the fixed order
boolean → numeric → datetime → categorical over the sampled non-empty
values, with *strict* thresholds (more than 80% boolean tokens, else more
than 80% numeric after stripping, else more than 70% date-like, else
categorical), and a column with zero non-empty sampled values is
categorical. -/
theorem c4_detect_types_strict (rows : List Row) (cols : List String) :
    detectAdvancedDataTypes rows cols =
      (List.range cols.length).map fun j =>
        (cols.getD j "", specDetectStrict (sampleValuesOf rows j)) := by
  unfold detectAdvancedDataTypes
  refine List.map_congr_left fun j _ => ?_
  rw [detectColumnType_eq_specStrict]

theorem insertByAccDesc_perm (a : MLModelResult) (l : List MLModelResult) :
    List.Perm (insertByAccDesc a l) (a :: l) := by
  induction l with
  | nil => exact List.Perm.refl _
  | cons b t ih =>
      unfold insertByAccDesc
      by_cases h : b.accuracy ≤ a.accuracy
      · rw [if_pos h]
      · rw [if_neg h]
        exact (ih.cons b).trans (List.Perm.swap a b t)

theorem sortByAccDesc_perm (l : List MLModelResult) : List.Perm (sortByAccDesc l) l := by
  induction l with
  | nil => exact List.Perm.refl _
  | cons a t ih => exact (insertByAccDesc_perm a (sortByAccDesc t)).trans (ih.cons a)

theorem sortByAccDesc_ne_nil (l : List MLModelResult) (h : l ≠ []) : sortByAccDesc l ≠ [] := by
  intro he
  exact h (List.Perm.eq_nil ((sortByAccDesc_perm l).symm.trans (he ▸ List.Perm.refl _)))

theorem mem_insertByAccDesc (x a : MLModelResult) (l : List MLModelResult)
    (h : x ∈ insertByAccDesc a l) : x = a ∨ x ∈ l :=
  (List.mem_cons.mp ((insertByAccDesc_perm a l).mem_iff.mp h))

theorem insertByAccDesc_sorted (a : MLModelResult) (l : List MLModelResult)
    (h : l.Pairwise fun p q => q.accuracy ≤ p.accuracy) :
    (insertByAccDesc a l).Pairwise fun p q => q.accuracy ≤ p.accuracy := by
  induction l with
  | nil => simp [insertByAccDesc]
  | cons b t ih =>
      rw [List.pairwise_cons] at h
      obtain ⟨hb, ht⟩ := h
      unfold insertByAccDesc
      by_cases hba : b.accuracy ≤ a.accuracy
      · rw [if_pos hba]
        refine List.Pairwise.cons (fun x hx => ?_) (List.Pairwise.cons hb ht)
        rcases List.mem_cons.mp hx with rfl | hxt
        · exact hba
        · exact le_trans (hb x hxt) hba
      · rw [if_neg hba]
        refine List.Pairwise.cons (fun x hx => ?_) (ih ht)
        rcases mem_insertByAccDesc x a t hx with rfl | hxt
        · exact le_of_lt (lt_of_not_le hba)
        · exact hb x hxt

theorem sortByAccDesc_sorted (l : List MLModelResult) :
    (sortByAccDesc l).Pairwise fun p q => q.accuracy ≤ p.accuracy := by
  induction l with
  | nil => simp [sortByAccDesc]
  | cons a t ih => exact insertByAccDesc_sorted a (sortByAccDesc t) ih

theorem firstMaxElt_mem (l : List MLModelResult) (h : l ≠ []) : firstMaxElt l ∈ l := by
  induction l with
  | nil => exact absurd rfl h
  | cons a t ih =>
      unfold firstMaxElt
      by_cases hte : t.isEmpty
      · rw [if_pos hte]; exact List.mem_cons_self a t
      · rw [if_neg hte]
        by_cases hc : (firstMaxElt t).accuracy ≤ a.accuracy
        · rw [if_pos hc]; exact List.mem_cons_self a t
        · rw [if_neg hc]
          exact List.mem_cons_of_mem a (ih (by simpa [List.isEmpty_iff] using hte))

theorem firstMaxElt_max (l : List MLModelResult) :
    ∀ m ∈ l, m.accuracy ≤ (firstMaxElt l).accuracy := by
  induction l with
  | nil => intro m hm; cases hm
  | cons a t ih =>
      intro m hm
      unfold firstMaxElt
      by_cases hte : t.isEmpty
      · rw [if_pos hte]
        have : t = [] := by simpa [List.isEmpty_iff] using hte
        subst this
        rcases List.mem_cons.mp hm with rfl | h
        · exact le_refl _
        · cases h
      · rw [if_neg hte]
        by_cases hc : (firstMaxElt t).accuracy ≤ a.accuracy
        · rw [if_pos hc]
          rcases List.mem_cons.mp hm with rfl | h
          · exact le_refl _
          · exact le_trans (ih m h) hc
        · rw [if_neg hc]
          rcases List.mem_cons.mp hm with rfl | h
          · exact le_of_lt (lt_of_not_le hc)
          · exact ih m h

theorem sortByAccDesc_headD (l : List MLModelResult) (hl : l ≠ []) :
    (sortByAccDesc l).headD default = firstMaxElt l := by
  induction l with
  | nil => exact absurd rfl hl
  | cons a t ih =>
      show (insertByAccDesc a (sortByAccDesc t)).headD default = firstMaxElt (a :: t)
      by_cases ht : t = []
      · subst ht
        simp [sortByAccDesc, insertByAccDesc, firstMaxElt]
      · have hst := sortByAccDesc_ne_nil t ht
        obtain ⟨b, t2, e⟩ := List.exists_cons_of_ne_nil hst
        have hb : b = firstMaxElt t := by
          have h1 := ih ht
          rw [e] at h1
          simpa using h1
        rw [e]
        by_cases hc : b.accuracy ≤ a.accuracy
        · rw [show insertByAccDesc a (b :: t2) = a :: b :: t2 by
            rw [insertByAccDesc, if_pos hc]]
          unfold firstMaxElt
          rw [if_neg (by simpa [List.isEmpty_iff] using ht), if_pos (by rw [← hb]; exact hc)]
          rfl
        · rw [show insertByAccDesc a (b :: t2) = b :: insertByAccDesc a t2 by
            rw [insertByAccDesc, if_neg hc]]
          unfold firstMaxElt
          rw [if_neg (by simpa [List.isEmpty_iff] using ht), if_neg (by rw [← hb]; exact hc)]
          simpa using hb

theorem markRecommended_map_acc (l : List MLModelResult) :
    (markRecommended l).map (·.accuracy) = l.map (·.accuracy) := by
  induction l with
  | nil => rfl
  | cons a t ih =>
      unfold markRecommended
      by_cases h : ∀ m ∈ t, m.accuracy ≤ a.accuracy
      · rw [if_pos h]; rfl
      · rw [if_neg h]; simpa using ih

theorem markRecommended_ne_nil (l : List MLModelResult) (h : l ≠ []) :
    markRecommended l ≠ [] := by
  cases l with
  | nil => exact absurd rfl h
  | cons a t =>
      unfold markRecommended
      by_cases hd : ∀ m ∈ t, m.accuracy ≤ a.accuracy
      · rw [if_pos hd]; exact List.cons_ne_nil _ _
      · rw [if_neg hd]; exact List.cons_ne_nil _ _

theorem markRecommended_countP (l : List MLModelResult) (hl : l ≠ [])
    (hall : ∀ m ∈ l, m.recommended = false) :
    (markRecommended l).countP (·.recommended) = 1 := by
  induction l with
  | nil => exact absurd rfl hl
  | cons a t ih =>
      unfold markRecommended
      by_cases hd : ∀ m ∈ t, m.accuracy ≤ a.accuracy
      · rw [if_pos hd]
        rw [List.countP_cons]
        have ht0 : t.countP (·.recommended) = 0 :=
          List.countP_eq_zero.mpr fun m hm => by
            simp [hall m (List.mem_cons_of_mem a hm)]
        simp [ht0]
      · rw [if_neg hd]
        have htne : t ≠ [] := by
          intro he
          exact hd (by subst he; intro m hm; cases hm)
        rw [List.countP_cons]
        have ha : a.recommended = false := hall a (List.mem_cons_self a t)
        have := ih htne fun m hm => hall m (List.mem_cons_of_mem a hm)
        simp [ha, this]

theorem markRecommended_firstMax_rec (l : List MLModelResult) (hl : l ≠ []) :
    (firstMaxElt (markRecommended l)).recommended = true := by
  induction l with
  | nil => exact absurd rfl hl
  | cons a t ih =>
      unfold markRecommended
      by_cases hd : ∀ m ∈ t, m.accuracy ≤ a.accuracy
      · rw [if_pos hd]
        unfold firstMaxElt
        by_cases hte : t.isEmpty
        · rw [if_pos hte]
        · rw [if_neg hte]
          have htne : t ≠ [] := by simpa [List.isEmpty_iff] using hte
          have hfm := firstMaxElt_mem t htne
          rw [if_pos (by simpa using hd _ hfm)]
      · rw [if_neg hd]
        have htne : t ≠ [] := by
          intro he
          exact hd (by subst he; intro m hm; cases hm)
        have hmne : markRecommended t ≠ [] := markRecommended_ne_nil t htne
        unfold firstMaxElt
        rw [if_neg (by simpa [List.isEmpty_iff] using hmne)]
        push_neg at hd
        obtain ⟨m, hmt, hma⟩ := hd
        have hacc : m.accuracy ∈ (markRecommended t).map (·.accuracy) := by
          rw [markRecommended_map_acc]
          exact List.mem_map.mpr ⟨m, hmt, rfl⟩
        obtain ⟨m2, hm2, hm2a⟩ := List.mem_map.mp hacc
        have : a.accuracy < (firstMaxElt (markRecommended t)).accuracy :=
          lt_of_lt_of_le hma (hm2a ▸ firstMaxElt_max (markRecommended t) m2 hm2)
        rw [if_neg (not_le.mpr this)]
        exact ih htne

theorem pairwise_headD_max (l : List MLModelResult)
    (h : l.Pairwise fun p q => q.accuracy ≤ p.accuracy) :
    ∀ m ∈ l, m.accuracy ≤ (l.headD default).accuracy := by
  cases l with
  | nil => intro m hm; cases hm
  | cons a t =>
      intro m hm
      rcases List.mem_cons.mp hm with rfl | hmt
      · exact le_refl _
      · exact (List.pairwise_cons.mp h).1 m hmt

theorem aggregateModels_spec (ms : List MLModelResult) (h1 : ms ≠ [])
    (h2 : ∀ m ∈ ms, m.recommended = false) :
    (aggregateModels ms).countP (·.recommended) = 1 ∧
    ((aggregateModels ms).headD default).recommended = true ∧
    (∀ m ∈ aggregateModels ms, m.accuracy ≤ ((aggregateModels ms).headD default).accuracy) ∧
    (aggregateModels ms).Pairwise fun p q => q.accuracy ≤ p.accuracy := by
  have hne : ¬(ms.isEmpty = true) := by simpa [List.isEmpty_iff] using h1
  unfold aggregateModels
  rw [if_neg hne]
  have hmne := markRecommended_ne_nil ms h1
  refine ⟨?_, ?_, ?_, sortByAccDesc_sorted _⟩
  · rw [List.Perm.countP_eq _ (sortByAccDesc_perm (markRecommended ms))]
    exact markRecommended_countP ms h1 h2
  · rw [sortByAccDesc_headD _ hmne]
    exact markRecommended_firstMax_rec ms h1
  · exact pairwise_headD_max _ (sortByAccDesc_sorted _)

theorem normalizeFeatures_length (X : List (List ℚ)) :
    (normalizeFeatures X).length = X.length := by
  unfold normalizeFeatures
  by_cases h : X.isEmpty
  · rw [if_pos h]
    simp [List.isEmpty_iff.mp h]
  · rw [if_neg h]
    simp

theorem normalizeFeatures_headD_length (X : List (List ℚ)) :
    ((normalizeFeatures X).headD []).length = (X.headD []).length := by
  unfold normalizeFeatures
  cases X with
  | nil => simp
  | cons x t =>
      rw [if_neg (by simp)]
      simp

/-- C1: whenever `trainModels` returns a non-empty model list (over any
outcome of the randomized per-model training, each record being pushed
with `recommended: false`), exactly one entry is recommended, the head of
the returned list is that entry (so the recommended model has the maximal
accuracy, the first-trained model winning ties), and the list is sorted in
descending order of accuracy. -/
theorem c1_trainModels_recommended
    (builder : List (List ℝ) → List ℕ → List (List ℝ) → List ℕ → List String → List MLModelResult)
    (rows : List Row) (cols : List String) (types : List (String × ColType))
    (hb : ∀ Xtr ytr Xte yte names, ∀ m ∈ builder Xtr ytr Xte yte names, m.recommended = false)
    (hne : trainModels builder rows cols types ≠ []) :
    (trainModels builder rows cols types).countP (·.recommended) = 1 ∧
    ((trainModels builder rows cols types).headD default).recommended = true ∧
    (∀ m ∈ trainModels builder rows cols types,
      m.accuracy ≤ ((trainModels builder rows cols types).headD default).accuracy) ∧
    (trainModels builder rows cols types).Pairwise fun p q => q.accuracy ≤ p.accuracy := by
  unfold trainModels at hne ⊢
  by_cases hg : (preprocessX rows cols types).length = 0 ∨
      ((preprocessX rows cols types).headD []).length = 0
  · rw [if_pos hg] at hne
    exact absurd rfl hne
  · rw [if_neg hg] at hne ⊢
    have hms : (builder ((preprocessX rows cols types).take (splitIndex (preprocessX rows cols types).length))
        ((labelsFor rows).take (splitIndex (preprocessX rows cols types).length))
        ((preprocessX rows cols types).drop (splitIndex (preprocessX rows cols types).length))
        ((labelsFor rows).drop (splitIndex (preprocessX rows cols types).length))
        (numericColumns cols types)) ≠ [] := by
      intro he
      rw [he] at hne
      exact hne rfl
    exact aggregateModels_spec _ hms (hb _ _ _ _ _)

theorem c1_trainModels_recommended_witness :
    trainModels wBuilder [[Value.num 1], [Value.num 2]] ["a"] [("a", ColType.numeric)] ≠ [] ∧
    (trainModels wBuilder [[Value.num 1], [Value.num 2]] ["a"] [("a", ColType.numeric)]).countP
        (·.recommended) = 1 ∧
    ((trainModels wBuilder [[Value.num 1], [Value.num 2]] ["a"]
        [("a", ColType.numeric)]).headD default).recommended = true ∧
    (trainModels wBuilder [[Value.num 1], [Value.num 2]] ["a"]
        [("a", ColType.numeric)]).Pairwise fun p q => q.accuracy ≤ p.accuracy := by
  have hb : ∀ Xtr ytr Xte yte names, ∀ m ∈ wBuilder Xtr ytr Xte yte names,
      m.recommended = false := by
    intro _ _ _ _ _ m hm
    rcases List.mem_cons.mp hm with rfl | hm2
    · rfl
    · rcases List.mem_cons.mp hm2 with rfl | hm3
      · rfl
      · cases hm3
  have hg : ¬((preprocessX [[Value.num 1], [Value.num 2]] ["a"] [("a", ColType.numeric)]).length = 0 ∨
      ((preprocessX [[Value.num 1], [Value.num 2]] ["a"] [("a", ColType.numeric)]).headD []).length = 0) := by
    unfold preprocessX
    rw [normalizeFeatures_length, normalizeFeatures_headD_length]
    decide
  have hne : trainModels wBuilder [[Value.num 1], [Value.num 2]] ["a"] [("a", ColType.numeric)] ≠ [] := by
    unfold trainModels
    rw [if_neg hg]
    show aggregateModels wModels ≠ []
    decide
  have h := c1_trainModels_recommended wBuilder [[Value.num 1], [Value.num 2]] ["a"]
    [("a", ColType.numeric)] hb hne
  exact ⟨hne, h.1, h.2.1, h.2.2.2⟩

/-- C8: when the dataset has no rows, or no column is typed numeric (so
the preprocessed feature matrix is empty or has zero columns),
`trainModels` returns the empty model list — the guard short-circuits
before any model is trained, and no error is raised (the embedding is a
total function). -/
theorem c8_trainModels_empty
    (builder : List (List ℝ) → List ℕ → List (List ℝ) → List ℕ → List String → List MLModelResult)
    (rows : List Row) (cols : List String) (types : List (String × ColType))
    (h : rows = [] ∨ ∀ c ∈ cols, lookupCT types c ≠ some ColType.numeric) :
    trainModels builder rows cols types = [] := by
  have hg : (preprocessX rows cols types).length = 0 ∨
      ((preprocessX rows cols types).headD []).length = 0 := by
    rcases h with rfl | hnone
    · left
      unfold preprocessX
      rw [normalizeFeatures_length]
      rfl
    · have hcols : numericColumns cols types = [] := by
        unfold numericColumns
        refine List.filter_eq_nil_iff.mpr fun c hc => ?_
        simpa using hnone c hc
      cases rows with
      | nil =>
          left
          unfold preprocessX
          rw [normalizeFeatures_length]
          rfl
      | cons r t =>
          right
          unfold preprocessX
          rw [normalizeFeatures_headD_length]
          unfold rawFeatureMatrix
          rw [hcols]
          rfl
  unfold trainModels
  rw [if_pos hg]

theorem c8_trainModels_empty_witness :
    (∀ c ∈ ["a"], lookupCT [("a", ColType.categorical)] c ≠ some ColType.numeric) ∧
    trainModels wBuilder [[Value.str "x"]] ["a"] [("a", ColType.categorical)] = [] :=
  ⟨by decide, c8_trainModels_empty wBuilder _ _ _ (Or.inr (by decide))⟩

theorem getD_replicate_self (k i : ℕ) (c : Value) : (List.replicate k c).getD i c = c := by
  by_cases h : i < k
  · rw [List.getD_eq_getElem _ _ (by simpa using h)]
    exact List.getElem_replicate _ _
  · exact List.getD_eq_default _ _ (by simpa using le_of_not_lt h)

theorem cellAt_setCellAt_self (r : Row) (j : ℕ) (v : Value) :
    cellAt (setCellAt r j v) j = v := by
  unfold cellAt setCellAt
  by_cases h : j < r.length
  · rw [if_pos h, List.getD_eq_getElem _ _ (by simpa using h)]
    exact List.getElem_set_self _
  · rw [if_neg h]
    have hlen : (r ++ List.replicate (j - r.length) Value.undef).length = j := by
      simp [Nat.add_sub_cancel' (le_of_not_lt h)]
    rw [List.getD_append_right _ _ _ _ (by rw [hlen]), hlen]
    simp

theorem cellAt_setCellAt_ne (r : Row) (j j2 : ℕ) (v : Value) (h : j ≠ j2) :
    cellAt (setCellAt r j v) j2 = cellAt r j2 := by
  unfold cellAt setCellAt
  by_cases hl : j < r.length
  · rw [if_pos hl]
    by_cases h2 : j2 < r.length
    · rw [List.getD_eq_getElem _ _ (by simpa using h2), List.getD_eq_getElem _ _ h2]
      exact List.getElem_set_ne h _
    · rw [List.getD_eq_default _ _ (by simpa using le_of_not_lt h2),
        List.getD_eq_default _ _ (le_of_not_lt h2)]
  · rw [if_neg hl]
    have hlen : (r ++ List.replicate (j - r.length) Value.undef).length = j := by
      simp [Nat.add_sub_cancel' (le_of_not_lt hl)]
    by_cases h2 : j2 < r.length
    · rw [List.getD_append _ _ _ _ (by rw [hlen]; omega),
        List.getD_append _ _ _ _ h2]
    · rw [List.getD_eq_default _ _ (le_of_not_lt h2)]
      by_cases h3 : j2 < j
      · rw [List.getD_append _ _ _ _ (by rw [hlen]; omega),
          List.getD_append_right _ _ _ _ (le_of_not_lt h2)]
        exact getD_replicate_self _ _ _
      · rw [List.getD_eq_default]
        simp only [List.length_append, hlen, List.length_cons, List.length_nil]
        omega

theorem cellAt_getD_colProj (rows : List Row) (j i : ℕ) (hi : i < rows.length) :
    cellAt (rows.getD i []) j = (colProj rows j).getD i Value.undef := by
  unfold colProj
  rw [List.getD_eq_getElem _ _ hi]
  rw [List.getD_eq_getElem _ _
    (show i < (List.map (fun r => cellAt r j) rows).length by simpa using hi)]
  rw [List.getElem_map]

theorem colProj_length (rows : List Row) (j : ℕ) : (colProj rows j).length = rows.length := by
  simp [colProj]

theorem foldl_colProj_preserve (F : List Row → ℕ → List Row) (j : ℕ)
    (hne : ∀ res i, i ≠ j → colProj (F res i) j = colProj res j) :
    ∀ (L : List ℕ) (rows : List Row), (∀ i ∈ L, i ≠ j) →
      colProj (L.foldl F rows) j = colProj rows j := by
  intro L
  induction L with
  | nil => intro rows _; rfl
  | cons i t ih =>
      intro rows hL
      rw [List.foldl_cons, ih _ fun x hx => hL x (List.mem_cons_of_mem _ hx),
        hne rows i (hL i (List.mem_cons_self _ _))]

theorem foldl_range_colProj (F : List Row → ℕ → List Row) (G : List Value → List Value)
    (j : ℕ)
    (hne : ∀ res i, i ≠ j → colProj (F res i) j = colProj res j)
    (heq : ∀ res, colProj (F res j) j = G (colProj res j)) :
    ∀ (n : ℕ), j < n → ∀ rows,
      colProj ((List.range n).foldl F rows) j = G (colProj rows j) := by
  intro n
  induction n with
  | zero => omega
  | succ m ih =>
      intro hj rows
      rw [List.range_succ, List.foldl_append]
      by_cases hjm : j = m
      · subst hjm
        show colProj (F ((List.range j).foldl F rows) j) j = G (colProj rows j)
        rw [heq, foldl_colProj_preserve F j hne _ _ fun i hi => by
          have := List.mem_range.mp hi; omega]
      · have hj2 : j < m := by omega
        show colProj (F ((List.range m).foldl F rows) m) j = G (colProj rows j)
        rw [hne _ m (fun h => hjm h.symm), ih hj2 rows]

theorem foldl_length_preserve (F : List Row → ℕ → List Row)
    (hF : ∀ res i, (F res i).length = res.length) :
    ∀ (L : List ℕ) (rows : List Row), (L.foldl F rows).length = rows.length := by
  intro L
  induction L with
  | nil => intro rows; rfl
  | cons i t ih => intro rows; rw [List.foldl_cons, ih, hF]

theorem imputeMissCond_eq_jsFalsy (v : Value) : imputeMissCond v = jsFalsy v := by
  cases v <;> simp [imputeMissCond, jsFalsy]

theorem colProj_map_eq (res : List Row) (j : ℕ) (f : Row → Row)
    (hf : ∀ r, cellAt (f r) j = cellAt r j) : colProj (res.map f) j = colProj res j := by
  unfold colProj
  rw [List.map_map]
  exact List.map_congr_left fun r _ => hf r

theorem colProj_map_apply (res : List Row) (j : ℕ) (f : Row → Row) (g : Value → Value)
    (hf : ∀ r, cellAt (f r) j = g (cellAt r j)) :
    colProj (res.map f) j = (colProj res j).map g := by
  unfold colProj
  rw [List.map_map, List.map_map]
  exact List.map_congr_left fun r _ => hf r

theorem imputeNumericValid_eq_colProj (rows : List Row) (j : ℕ) :
    imputeNumericValid rows j = (colProj rows j).filterMap jsToNumber := by
  unfold imputeNumericValid colProj
  rw [List.filterMap_map]
  rfl

theorem imputeModeValid_eq_colProj (rows : List Row) (j : ℕ) :
    imputeModeValid rows j =
      (colProj rows j).filter fun v => !(v = .null || v = .undef || v = .str "") := rfl

theorem imputeColumn_colProj_ne (res : List Row) (i j : ℕ) (ty : Option ColType)
    (h : i ≠ j) : colProj (imputeColumn res i ty) j = colProj res j := by
  unfold imputeColumn
  split_ifs with h1 h2 h3 h4
  · rfl
  · refine colProj_map_eq res j _ fun r => ?_
    by_cases hc : imputeMissCond (cellAt r i) = true
    · rw [if_pos hc]
      exact cellAt_setCellAt_ne _ _ _ _ h
    · rw [if_neg hc]
  · rfl
  · refine colProj_map_eq res j _ fun r => ?_
    by_cases hc : imputeMissCond (cellAt r i) = true
    · rw [if_pos hc]
      exact cellAt_setCellAt_ne _ _ _ _ h
    · rw [if_neg hc]
  · rfl

theorem imputeColumn_colProj_self (res : List Row) (j : ℕ) (ty : Option ColType) :
    colProj (imputeColumn res j ty) j = imputeColumnProj (colProj res j) ty := by
  have hany : ((colProj res j).any imputeMissCond) =
      (res.any fun r => imputeMissCond (cellAt r j)) := by
    rw [colProj]
    induction res with
    | nil => rfl
    | cons r t ih => rw [List.map_cons, List.any_cons, List.any_cons, ih]
  unfold imputeColumn imputeColumnProj
  rw [hany, ← imputeNumericValid_eq_colProj, ← imputeModeValid_eq_colProj]
  split_ifs with h1 h2 h3 h4
  · rfl
  · refine colProj_map_apply res j _ _ fun r => ?_
    by_cases hc : imputeMissCond (cellAt r j) = true
    · rw [if_pos hc, if_pos hc]
      exact cellAt_setCellAt_self _ _ _
    · rw [if_neg hc, if_neg hc]
  · rfl
  · refine colProj_map_apply res j _ _ fun r => ?_
    by_cases hc : imputeMissCond (cellAt r j) = true
    · rw [if_pos hc, if_pos hc]
      exact cellAt_setCellAt_self _ _ _
    · rw [if_neg hc, if_neg hc]
  · rfl

theorem imputeColumn_length (res : List Row) (i : ℕ) (ty : Option ColType) :
    (imputeColumn res i ty).length = res.length := by
  unfold imputeColumn
  split_ifs <;> simp

theorem imputeStep_length (rows : List Row) (cols : List String)
    (types : List (String × ColType)) : (imputeStep rows cols types).length = rows.length :=
  foldl_length_preserve _ (fun res i => imputeColumn_length res i _) _ rows

theorem imputeStep_colProj (rows : List Row) (cols : List String)
    (types : List (String × ColType)) (j : ℕ) (hj : j < cols.length) :
    colProj (imputeStep rows cols types) j =
      imputeColumnProj (colProj rows j) (colTypeAt types cols j) :=
  foldl_range_colProj _ (fun col => imputeColumnProj col (colTypeAt types cols j)) j
    (fun res i hi => imputeColumn_colProj_ne res i j _ hi)
    (fun res => imputeColumn_colProj_self res j _)
    cols.length hj rows

theorem imputeColumnProj_getD_numeric (col : List Value) (i : ℕ) (hi : i < col.length)
    (hfalsy : jsFalsy (col.getD i .undef) = true)
    (hvalid : col.filterMap jsToNumber ≠ []) :
    (imputeColumnProj col (some ColType.numeric)).getD i .undef =
      .num (ssMedian (col.filterMap jsToNumber)) := by
  unfold imputeColumnProj
  have hmiss : imputeMissCond (col.getD i .undef) = true := by
    rw [imputeMissCond_eq_jsFalsy]
    exact hfalsy
  have hgm : col.getD i .undef ∈ col := by
    rw [List.getD_eq_getElem _ _ hi]
    exact List.getElem_mem _
  have hany : col.any imputeMissCond = true := List.any_eq_true.mpr ⟨_, hgm, hmiss⟩
  rw [if_pos hany, if_pos rfl, if_neg (by simpa [List.isEmpty_iff] using hvalid)]
  rw [List.getD_eq_getElem _ _ (by simpa using hi), List.getElem_map]
  rw [List.getD_eq_getElem _ _ hi] at hmiss
  rw [if_pos hmiss]

theorem imputeColumnProj_getD_mode (col : List Value) (i : ℕ) (ty : Option ColType)
    (hi : i < col.length) (hfalsy : jsFalsy (col.getD i .undef) = true)
    (hty : ty ≠ some ColType.numeric)
    (hvalid : (col.filter fun v => !(v = .null || v = .undef || v = .str "")) ≠ []) :
    (imputeColumnProj col ty).getD i .undef =
      jsMode (col.filter fun v => !(v = .null || v = .undef || v = .str "")) := by
  unfold imputeColumnProj
  have hmiss : imputeMissCond (col.getD i .undef) = true := by
    rw [imputeMissCond_eq_jsFalsy]
    exact hfalsy
  have hgm : col.getD i .undef ∈ col := by
    rw [List.getD_eq_getElem _ _ hi]
    exact List.getElem_mem _
  have hany : col.any imputeMissCond = true := List.any_eq_true.mpr ⟨_, hgm, hmiss⟩
  rw [if_pos hany, if_neg hty, if_neg (by simpa [List.isEmpty_iff] using hvalid)]
  rw [List.getD_eq_getElem _ _ (by simpa using hi), List.getElem_map]
  rw [List.getD_eq_getElem _ _ hi] at hmiss
  rw [if_pos hmiss]

/-- C10: in the imputation step, every cell holding a falsy value (`0`,
`false`, `null`, `undefined`, `""`, `NaN`) is treated as missing and
overwritten: in a numeric column with the median of the `Number`-coerced
column (whose valid values include the falsy cells themselves, coerced to
0, except `undefined`/`NaN`), and in any other column with the mode of the
non-null non-empty values — in each case provided such valid values exist,
as the source requires before imputing. -/
theorem c10_falsy_cells_imputed (rows : List Row) (cols : List String)
    (types : List (String × ColType)) (i j : ℕ) (hj : j < cols.length)
    (hi : i < rows.length)
    (hfalsy : jsFalsy (cellAt (rows.getD i []) j) = true) :
    (colTypeAt types cols j = some ColType.numeric → imputeNumericValid rows j ≠ [] →
      cellAt ((imputeStep rows cols types).getD i []) j =
        .num (ssMedian (imputeNumericValid rows j))) ∧
    (colTypeAt types cols j ≠ some ColType.numeric → imputeModeValid rows j ≠ [] →
      cellAt ((imputeStep rows cols types).getD i []) j = jsMode (imputeModeValid rows j)) := by
  have hi2 : i < (imputeStep rows cols types).length := by
    rw [imputeStep_length]
    exact hi
  have hcell := cellAt_getD_colProj (imputeStep rows cols types) j i hi2
  have hcol : i < (colProj rows j).length := by
    rw [colProj_length]
    exact hi
  have hf2 : jsFalsy ((colProj rows j).getD i .undef) = true := by
    rw [← cellAt_getD_colProj rows j i hi]
    exact hfalsy
  constructor
  · intro hty hvalid
    rw [hcell, imputeStep_colProj rows cols types j hj, hty,
      imputeNumericValid_eq_colProj]
    exact imputeColumnProj_getD_numeric _ i hcol hf2
      (by rw [← imputeNumericValid_eq_colProj]; exact hvalid)
  · intro hty hvalid
    rw [hcell, imputeStep_colProj rows cols types j hj,
      imputeModeValid_eq_colProj]
    exact imputeColumnProj_getD_mode _ i _ hcol hf2 hty
      (by rw [← imputeModeValid_eq_colProj]; exact hvalid)

theorem c10_falsy_cells_imputed_witness :
    0 < 1 ∧ 0 < 2 ∧
    jsFalsy (cellAt (([[Value.num 0], [Value.num 6]] : List Row).getD 0 []) 0) = true ∧
    imputeNumericValid [[Value.num 0], [Value.num 6]] 0 ≠ [] ∧
    cellAt ((imputeStep [[Value.num 0], [Value.num 6]] ["a"] [("a", ColType.numeric)]).getD 0 []) 0 =
      .num (ssMedian (imputeNumericValid [[Value.num 0], [Value.num 6]] 0)) := by
  refine ⟨by decide, by decide, by decide, by decide, ?_⟩
  have h := c10_falsy_cells_imputed [[Value.num 0], [Value.num 6]] ["a"]
    [("a", ColType.numeric)] 0 0 (by decide) (by decide) (by decide)
  exact h.1 rfl (by decide)

theorem insertAsc_length (a : ℚ) (l : List ℚ) : (insertAsc a l).length = l.length + 1 := by
  induction l with
  | nil => rfl
  | cons b t ih =>
      unfold insertAsc
      by_cases h : a ≤ b
      · rw [if_pos h]
        rfl
      · rw [if_neg h]
        simp [ih]

theorem sortAsc_length (l : List ℚ) : (sortAsc l).length = l.length := by
  induction l with
  | nil => rfl
  | cons a t ih =>
      show (insertAsc a (sortAsc t)).length = t.length + 1
      rw [insertAsc_length, ih]

theorem mem_insertAsc (x a : ℚ) (l : List ℚ) (h : x ∈ insertAsc a l) : x = a ∨ x ∈ l := by
  induction l with
  | nil => simpa [insertAsc] using h
  | cons b t ih =>
      unfold insertAsc at h
      by_cases hc : a ≤ b
      · rw [if_pos hc] at h
        exact List.mem_cons.mp h
      · rw [if_neg hc] at h
        rcases List.mem_cons.mp h with rfl | h2
        · exact Or.inr (List.mem_cons_self _ _)
        · rcases ih h2 with rfl | h3
          · exact Or.inl rfl
          · exact Or.inr (List.mem_cons_of_mem _ h3)

theorem insertAsc_sorted (a : ℚ) (l : List ℚ) (h : l.Pairwise (· ≤ ·)) :
    (insertAsc a l).Pairwise (· ≤ ·) := by
  induction l with
  | nil => simp [insertAsc]
  | cons b t ih =>
      rw [List.pairwise_cons] at h
      obtain ⟨hb, ht⟩ := h
      unfold insertAsc
      by_cases hc : a ≤ b
      · rw [if_pos hc]
        refine List.Pairwise.cons (fun x hx => ?_) (List.Pairwise.cons hb ht)
        rcases List.mem_cons.mp hx with rfl | hxt
        · exact hc
        · exact le_trans hc (hb x hxt)
      · rw [if_neg hc]
        refine List.Pairwise.cons (fun x hx => ?_) (ih ht)
        rcases mem_insertAsc x a t hx with rfl | hxt
        · exact le_of_lt (lt_of_not_le hc)
        · exact hb x hxt

theorem sortAsc_sorted (l : List ℚ) : (sortAsc l).Pairwise (· ≤ ·) := by
  induction l with
  | nil => simp [sortAsc]
  | cons a t ih => exact insertAsc_sorted a (sortAsc t) ih

theorem sorted_getD_mono (l : List ℚ) (h : l.Pairwise (· ≤ ·)) (i j : ℕ) (hij : i ≤ j)
    (hj : j < l.length) : l.getD i 0 ≤ l.getD j 0 := by
  rcases eq_or_lt_of_le hij with rfl | hlt
  · exact le_refl _
  · rw [List.getD_eq_getElem _ _ (lt_of_le_of_lt hij hj), List.getD_eq_getElem _ _ hj]
    have := List.pairwise_iff_get.mp h ⟨i, lt_of_le_of_lt hij hj⟩ ⟨j, hj⟩ hlt
    simpa using this

theorem ssQuantile4_q1_le_q3 (x : List ℚ) : ssQuantile4 x 1 ≤ ssQuantile4 x 3 := by
  unfold ssQuantile4
  have hsort : (sortAsc x).Pairwise (· ≤ ·) := sortAsc_sorted x
  have mono := sorted_getD_mono (sortAsc x) hsort
  by_cases h0 : (sortAsc x).length = 0
  · rw [if_pos h0, if_pos h0]
  · rw [if_neg h0, if_neg h0]
    have hn1 : 1 ≤ (sortAsc x).length := Nat.one_le_iff_ne_zero.mpr h0
    by_cases h4 : (sortAsc x).length % 4 = 0
    · have hc1 : ¬(((sortAsc x).length * 1) % 4 ≠ 0) := by omega
      have hc3 : ¬(((sortAsc x).length * 3) % 4 ≠ 0) := by omega
      have he : (sortAsc x).length % 2 = 0 := by omega
      rw [if_neg hc1, if_neg hc3, if_pos he, if_pos he]
      have e1 : (sortAsc x).getD ((sortAsc x).length * 1 / 4 - 1) 0 ≤
          (sortAsc x).getD ((sortAsc x).length * 3 / 4 - 1) 0 :=
        mono _ _ (by omega) (by omega)
      have e2 : (sortAsc x).getD ((sortAsc x).length * 1 / 4) 0 ≤
          (sortAsc x).getD ((sortAsc x).length * 3 / 4) 0 :=
        mono _ _ (by omega) (by omega)
      linarith
    · have hc1 : ((sortAsc x).length * 1) % 4 ≠ 0 := by omega
      have hc3 : ((sortAsc x).length * 3) % 4 ≠ 0 := by omega
      rw [if_pos hc1, if_pos hc3]
      exact mono _ _ (by omega) (by omega)

theorem capLowerOf_le_capUpperOf (values : List ℚ) :
    capLowerOf values ≤ capUpperOf values := by
  unfold capLowerOf capUpperOf
  have := ssQuantile4_q1_le_q3 values
  linarith

theorem capValuesOf_eq_colProj (rows : List Row) (j : ℕ) :
    capValuesOf rows j = (colProj rows j).filterMap parseStripped := by
  unfold capValuesOf colProj
  rw [List.filterMap_map]
  rfl

theorem capColumn_colProj_ne (res : List Row) (i j : ℕ) (h : i ≠ j) :
    colProj (capColumn res i) j = colProj res j := by
  unfold capColumn
  split_ifs with h1
  · refine colProj_map_eq res j _ fun r => ?_
    cases hm : jsToNumber (cellAt r i) with
    | none => simp only [hm]
    | some x =>
        simp only [hm]
        split_ifs with hlt hgt
        · exact cellAt_setCellAt_ne _ _ _ _ h
        · exact cellAt_setCellAt_ne _ _ _ _ h
        · rfl
  · rfl

theorem capColumn_colProj_self (res : List Row) (j : ℕ) :
    colProj (capColumn res j) j = capColumnProj (colProj res j) := by
  unfold capColumn capColumnProj
  rw [← capValuesOf_eq_colProj]
  split_ifs with h1
  · refine colProj_map_apply res j _ _ fun r => ?_
    cases hm : jsToNumber (cellAt r j) with
    | none => simp only [hm]
    | some x =>
        simp only [hm]
        split_ifs with hlt hgt
        · exact cellAt_setCellAt_self _ _ _
        · exact cellAt_setCellAt_self _ _ _
        · rfl
  · rfl

theorem capColumn_length (res : List Row) (i : ℕ) : (capColumn res i).length = res.length := by
  unfold capColumn
  split_ifs <;> simp

theorem capStep_length (rows : List Row) (cols : List String)
    (types : List (String × ColType)) : (capStep rows cols types).length = rows.length := by
  refine foldl_length_preserve _ (fun res i => ?_) _ rows
  by_cases h : colTypeAt types cols i = some ColType.numeric
  · rw [if_pos h]
    exact capColumn_length res i
  · rw [if_neg h]

theorem capStep_colProj (rows : List Row) (cols : List String)
    (types : List (String × ColType)) (j : ℕ) (hj : j < cols.length)
    (hty : colTypeAt types cols j = some ColType.numeric) :
    colProj (capStep rows cols types) j = capColumnProj (colProj rows j) := by
  refine foldl_range_colProj _ capColumnProj j (fun res i hi => ?_) (fun res => ?_)
    cols.length hj rows
  · by_cases h : colTypeAt types cols i = some ColType.numeric
    · rw [if_pos h]
      exact capColumn_colProj_ne res i j hi
    · rw [if_neg h]
  · rw [if_pos hty]
    exact capColumn_colProj_self res j

theorem capColumnProj_inBounds (col : List Value)
    (h : 10 < (col.filterMap parseStripped).length) :
    ∀ v ∈ capColumnProj col,
      valueInBounds jsToNumber (capLowerOf (col.filterMap parseStripped))
        (capUpperOf (col.filterMap parseStripped)) v = true := by
  intro v hv
  unfold capColumnProj at hv
  rw [if_pos h] at hv
  obtain ⟨w, hw, rfl⟩ := List.mem_map.mp hv
  unfold valueInBounds
  cases hjw : jsToNumber w with
  | none => simp [hjw]
  | some x =>
      simp only [hjw]
      split_ifs with hlt hgt
      · simp [jsToNumber, capLowerOf_le_capUpperOf]
      · simp [jsToNumber, capLowerOf_le_capUpperOf]
      · rw [hjw]
        simp only [Option.all_some]
        rw [Bool.and_eq_true, decide_eq_true_iff, decide_eq_true_iff]
        exact ⟨le_of_not_lt hlt, le_of_not_lt hgt⟩

/-- C2 (amended): for every numeric column with more than 10 stripped-parse
valid values, the outlier-handling step leaves the row count unchanged
(values are capped, never dropped), and afterwards every cell of that
column whose raw `Number` coercion yields a number lies within the IQR
fences `[Q1 − 1.5·IQR, Q3 + 1.5·IQR]` computed from the stripped-parse
values; cells parseable only after separator stripping are skipped by the
capping loop and may remain outside the fences. -/
theorem c2_capping_bounds (rows : List Row) (cols : List String)
    (types : List (String × ColType)) (j : ℕ) (hj : j < cols.length)
    (hty : colTypeAt types cols j = some ColType.numeric)
    (hcount : 10 < (capValuesOf rows j).length) :
    (capStep rows cols types).length = rows.length ∧
    ∀ r ∈ capStep rows cols types,
      valueInBounds jsToNumber (capLowerOf (capValuesOf rows j))
        (capUpperOf (capValuesOf rows j)) (cellAt r j) = true := by
  refine ⟨capStep_length rows cols types, fun r hr => ?_⟩
  have hcol : cellAt r j ∈ colProj (capStep rows cols types) j :=
    List.mem_map.mpr ⟨r, hr, rfl⟩
  rw [capStep_colProj rows cols types j hj hty] at hcol
  rw [capValuesOf_eq_colProj] at hcount ⊢
  exact capColumnProj_inBounds (colProj rows j) hcount _ hcol

theorem c2_capping_bounds_witness :
    0 < 1 ∧ colTypeAt [("a", ColType.numeric)] ["a"] 0 = some ColType.numeric ∧
    10 < (capValuesOf c2Rows 0).length ∧
    ((capStep c2Rows ["a"] [("a", ColType.numeric)]).length = c2Rows.length ∧
      ∀ r ∈ capStep c2Rows ["a"] [("a", ColType.numeric)],
        valueInBounds jsToNumber (capLowerOf (capValuesOf c2Rows 0))
          (capUpperOf (capValuesOf c2Rows 0)) (cellAt r 0) = true) := by
  refine ⟨by decide, by decide, by decide, ?_⟩
  exact c2_capping_bounds c2Rows ["a"] [("a", ColType.numeric)] 0 (by decide) (by decide)
    (by decide)

/-- C6 (counterexample): with column `a` valid in rows 0–1 and column `b`
valid in rows 0–2, the source filters each column independently and hands
`sampleCorrelation` lists of lengths 2 and 3, which throws (no entry),
while the claimed pairwise-complete Pearson correlation over the two rows
where both are valid is defined. -/
theorem c6_pairwise_counterexample :
    summEntry [[Value.num 1, Value.num 1], [Value.num 2, Value.num 2],
        [Value.str "x", Value.num 3]] ["a", "b"] "a" "b" ≠
      specPairwiseEntry [[Value.num 1, Value.num 1], [Value.num 2, Value.num 2],
        [Value.str "x", Value.num 3]] ["a", "b"] "a" "b" := by
  have h1 : summEntry [[Value.num 1, Value.num 1], [Value.num 2, Value.num 2],
      [Value.str "x", Value.num 3]] ["a", "b"] "a" "b" = none := by
    simp only [summEntry]
    rw [if_pos (by decide)]
    simp only [ssSampleCorrelation]
    rw [if_neg (by decide)]
  rw [h1]
  simp only [specPairwiseEntry, ssSampleCorrelation]
  rw [if_pos (by decide), if_neg (by decide)]
  simp

/-- C6 (amended): each column is filtered for valid numbers independently
and the correlation pairs the i-th retained value of one column with the
i-th retained value of the other, throwing when the retained lengths
differ; when every row holds a valid number in both columns (and there
are at least two rows), this coincides with the claimed pairwise-complete
row-aligned Pearson correlation. -/
theorem c6_pairwise_when_all_valid (rows : List Row) (cols : List String) (c1 c2 : String)
    (hlen : 1 < rows.length)
    (hval : ∀ r ∈ rows, (jsToNumber (cellAt r (cols.indexOf c1))).isSome ∧
      (jsToNumber (cellAt r (cols.indexOf c2))).isSome) :
    summEntry rows cols c1 c2 = specPairwiseEntry rows cols c1 c2 := by
  have key : ∀ l : List Row, (∀ r ∈ l, (jsToNumber (cellAt r (cols.indexOf c1))).isSome ∧
      (jsToNumber (cellAt r (cols.indexOf c2))).isSome) →
      (l.filterMap fun r => jsToNumber (cellAt r (cols.indexOf c1))) =
        (bothValidPairs l cols c1 c2).map Prod.fst ∧
      (l.filterMap fun r => jsToNumber (cellAt r (cols.indexOf c2))) =
        (bothValidPairs l cols c1 c2).map Prod.snd ∧
      (bothValidPairs l cols c1 c2).length = l.length := by
    intro l
    induction l with
    | nil => intro _; exact ⟨rfl, rfl, rfl⟩
    | cons r t ih =>
        intro hv
        obtain ⟨ha, hb⟩ := hv r (List.mem_cons_self _ _)
        obtain ⟨a, hae⟩ := Option.isSome_iff_exists.mp ha
        obtain ⟨b, hbe⟩ := Option.isSome_iff_exists.mp hb
        obtain ⟨e1, e2, e3⟩ := ih fun x hx => hv x (List.mem_cons_of_mem _ hx)
        unfold bothValidPairs at e1 e2 e3 ⊢
        refine ⟨?_, ?_, ?_⟩ <;>
          simp [List.filterMap_cons, hae, hbe, e1, e2, e3]
  obtain ⟨e1, e2, e3⟩ := key rows hval
  have hv1 : colValues rows cols c1 = (bothValidPairs rows cols c1 c2).map Prod.fst := e1
  have hv2 : colValues rows cols c2 = (bothValidPairs rows cols c1 c2).map Prod.snd := e2
  simp only [summEntry, specPairwiseEntry]
  rw [hv1, hv2, if_pos ⟨by simpa [e3] using hlen, by simpa [e3] using hlen⟩]

theorem c6_pairwise_when_all_valid_witness :
    1 < ([[Value.num 1, Value.num 1], [Value.num 2, Value.num 2],
        [Value.num 3, Value.num 5]] : List Row).length ∧
    (∀ r ∈ ([[Value.num 1, Value.num 1], [Value.num 2, Value.num 2],
        [Value.num 3, Value.num 5]] : List Row),
        (jsToNumber (cellAt r (["a", "b"].indexOf "a"))).isSome ∧
        (jsToNumber (cellAt r (["a", "b"].indexOf "b"))).isSome) ∧
    summEntry [[Value.num 1, Value.num 1], [Value.num 2, Value.num 2],
        [Value.num 3, Value.num 5]] ["a", "b"] "a" "b" =
      specPairwiseEntry [[Value.num 1, Value.num 1], [Value.num 2, Value.num 2],
        [Value.num 3, Value.num 5]] ["a", "b"] "a" "b" :=
  ⟨by decide, by decide,
    c6_pairwise_when_all_valid _ _ _ _ (by decide) (by decide)⟩

theorem map_sum_nonneg (l : List ℚ) (g : ℚ → ℚ) (hg : ∀ a, 0 ≤ g a) :
    0 ≤ (l.map g).sum := by
  induction l with
  | nil => simp
  | cons a t ih =>
      simp only [List.map_cons, List.sum_cons]
      have := hg a
      linarith

theorem map_sum_eq_range (ps : List (ℚ × ℚ)) (f : ℚ × ℚ → ℚ) :
    (ps.map f).sum = ∑ i ∈ Finset.range ps.length, f (ps.getD i (0, 0)) := by
  induction ps with
  | nil => simp
  | cons p t ih =>
      rw [List.map_cons, List.sum_cons, List.length_cons, Finset.sum_range_succ']
      simp only [List.getD_cons_succ, List.getD_cons_zero]
      rw [ih]
      ring

theorem list_cauchy (ps : List (ℚ × ℚ)) :
    ((ps.map fun p => p.1 * p.2).sum) ^ 2 ≤
      ((ps.map fun p => p.1 ^ 2).sum) * ((ps.map fun p => p.2 ^ 2).sum) := by
  rw [map_sum_eq_range ps fun p => p.1 * p.2, map_sum_eq_range ps fun p => p.1 ^ 2,
    map_sum_eq_range ps fun p => p.2 ^ 2]
  exact Finset.sum_mul_sq_le_sq_mul_sq (Finset.range ps.length)
    (fun i => (ps.getD i (0, 0)).1) (fun i => (ps.getD i (0, 0)).2)

theorem zip_sum_swap (f : ℚ → ℚ → ℚ) :
    ∀ a b : List ℚ,
      ((a.zip b).map fun p => f p.1 p.2).sum = ((b.zip a).map fun p => f p.2 p.1).sum := by
  intro a
  induction a with
  | nil => intro b; cases b <;> simp
  | cons x t ih =>
      intro b
      cases b with
      | nil => simp
      | cons y u => simp [ih u]

theorem zip_self_sum (f : ℚ → ℚ → ℚ) (l : List ℚ) :
    ((l.zip l).map fun p => f p.1 p.2).sum = (l.map fun a => f a a).sum := by
  induction l with
  | nil => rfl
  | cons a t ih => simp [ih]

theorem corrN_comm (x y : List ℚ) : corrN y x = corrN x y := by
  unfold corrN
  exact min_comm _ _

theorem corrMeanX_swap (x y : List ℚ) : corrMeanX y x = corrMeanY x y := by
  unfold corrMeanX corrMeanY
  rw [corrN_comm]

theorem corrMeanY_swap (x y : List ℚ) : corrMeanY y x = corrMeanX x y := by
  unfold corrMeanX corrMeanY
  rw [corrN_comm]

theorem corrNum_comm (x y : List ℚ) : corrNum y x = corrNum x y := by
  unfold corrNum
  rw [corrN_comm x y]
  calc (((y.take (corrN x y)).zip (x.take (corrN x y))).map
        fun p => (p.1 - corrMeanX y x) * (p.2 - corrMeanY y x)).sum
      = (((x.take (corrN x y)).zip (y.take (corrN x y))).map
        fun p => (p.2 - corrMeanX y x) * (p.1 - corrMeanY y x)).sum :=
        zip_sum_swap (fun u v => (u - corrMeanX y x) * (v - corrMeanY y x)) _ _
    _ = (((x.take (corrN x y)).zip (y.take (corrN x y))).map
        fun p => (p.1 - corrMeanX x y) * (p.2 - corrMeanY x y)).sum := by
        refine congrArg List.sum (List.map_congr_left fun p _ => ?_)
        rw [corrMeanX_swap x y, corrMeanY_swap x y]
        ring

theorem corrSxx_swap (x y : List ℚ) : corrSxx y x = corrSyy x y := by
  unfold corrSxx corrSyy
  rw [corrN_comm, corrMeanX_swap]

theorem corrSyy_swap (x y : List ℚ) : corrSyy y x = corrSxx x y := by
  unfold corrSxx corrSyy
  rw [corrN_comm, corrMeanY_swap]

theorem jsCorr_comm (x y : List ℚ) : jsCorr y x = jsCorr x y := by
  unfold jsCorr
  rw [corrN_comm x y, corrNum_comm x y, corrSxx_swap x y, corrSyy_swap x y,
    mul_comm (corrSyy x y) (corrSxx x y)]

theorem corrSxx_nonneg (x y : List ℚ) : 0 ≤ corrSxx x y := by
  unfold corrSxx
  exact map_sum_nonneg _ _ fun a => sq_nonneg _

theorem corrSyy_nonneg (x y : List ℚ) : 0 ≤ corrSyy x y := by
  unfold corrSyy
  exact map_sum_nonneg _ _ fun a => sq_nonneg _

theorem length_take_corrN_left (x y : List ℚ) : (x.take (corrN x y)).length = corrN x y := by
  simp [corrN]

theorem length_take_corrN_right (x y : List ℚ) : (y.take (corrN x y)).length = corrN x y := by
  simp [corrN]

theorem corrNum_sq_le (x y : List ℚ) : (corrNum x y) ^ 2 ≤ corrSxx x y * corrSyy x y := by
  have hx : (x.take (corrN x y)).length ≤ (y.take (corrN x y)).length := by
    rw [length_take_corrN_left, length_take_corrN_right]
  have hy : (y.take (corrN x y)).length ≤ (x.take (corrN x y)).length := by
    rw [length_take_corrN_left, length_take_corrN_right]
  have key1 : (((x.take (corrN x y)).zip (y.take (corrN x y))).map
      fun p => (p.1 - corrMeanX x y) ^ 2) =
      (x.take (corrN x y)).map fun a => (a - corrMeanX x y) ^ 2 := by
    rw [show (fun p : ℚ × ℚ => (p.1 - corrMeanX x y) ^ 2) =
        ((fun a => (a - corrMeanX x y) ^ 2) ∘ Prod.fst) from rfl,
      ← List.map_map, List.map_fst_zip _ _ hx]
  have key2 : (((x.take (corrN x y)).zip (y.take (corrN x y))).map
      fun p => (p.2 - corrMeanY x y) ^ 2) =
      (y.take (corrN x y)).map fun b => (b - corrMeanY x y) ^ 2 := by
    rw [show (fun p : ℚ × ℚ => (p.2 - corrMeanY x y) ^ 2) =
        ((fun b => (b - corrMeanY x y) ^ 2) ∘ Prod.snd) from rfl,
      ← List.map_map, List.map_snd_zip _ _ hy]
  have e1 : corrNum x y =
      ((((x.take (corrN x y)).zip (y.take (corrN x y))).map
        fun p => (p.1 - corrMeanX x y, p.2 - corrMeanY x y)).map fun p => p.1 * p.2).sum := by
    unfold corrNum
    rw [List.map_map]
    rfl
  have e2 : corrSxx x y =
      ((((x.take (corrN x y)).zip (y.take (corrN x y))).map
        fun p => (p.1 - corrMeanX x y, p.2 - corrMeanY x y)).map fun p => p.1 ^ 2).sum := by
    unfold corrSxx
    rw [List.map_map]
    exact (congrArg List.sum key1).symm
  have e3 : corrSyy x y =
      ((((x.take (corrN x y)).zip (y.take (corrN x y))).map
        fun p => (p.1 - corrMeanX x y, p.2 - corrMeanY x y)).map fun p => p.2 ^ 2).sum := by
    unfold corrSyy
    rw [List.map_map]
    exact (congrArg List.sum key2).symm
  rw [e1, e2, e3]
  exact list_cauchy _

theorem jsCorr_bounds (x y : List ℚ) : -1 ≤ jsCorr x y ∧ jsCorr x y ≤ 1 := by
  unfold jsCorr
  split_ifs with h0 hz
  · norm_num
  · norm_num
  · have hP : 0 < corrSxx x y * corrSyy x y :=
      lt_of_le_of_ne (mul_nonneg (corrSxx_nonneg x y) (corrSyy_nonneg x y)) (Ne.symm hz)
    have hPr : (0 : ℝ) < ((corrSxx x y * corrSyy x y : ℚ) : ℝ) := by exact_mod_cast hP
    have hsq : ((corrNum x y : ℚ) : ℝ) ^ 2 ≤ ((corrSxx x y * corrSyy x y : ℚ) : ℝ) := by
      exact_mod_cast corrNum_sq_le x y
    have habs : |((corrNum x y : ℚ) : ℝ)| ≤ Real.sqrt ((corrSxx x y * corrSyy x y : ℚ) : ℝ) := by
      rw [← Real.sqrt_sq_eq_abs]
      exact Real.sqrt_le_sqrt hsq
    have hd : (0 : ℝ) < Real.sqrt ((corrSxx x y * corrSyy x y : ℚ) : ℝ) :=
      Real.sqrt_pos.mpr hPr
    obtain ⟨hl, hr⟩ := abs_le.mp habs
    constructor
    · rw [le_div_iff₀ hd]
      linarith
    · rw [div_le_one hd]
      exact hr

theorem corrNum_self (v : List ℚ) : corrNum v v = corrSxx v v := by
  unfold corrNum corrSxx
  have hm : corrMeanY v v = corrMeanX v v := rfl
  rw [hm, zip_self_sum (fun u w => (u - corrMeanX v v) * (w - corrMeanX v v))]
  exact congrArg List.sum (List.map_congr_left fun a _ => by ring)

theorem corrSyy_self (v : List ℚ) : corrSyy v v = corrSxx v v := rfl

theorem jsCorr_self_eq_one (v : List ℚ) (hne : v ≠ [])
    (hsx : corrSxx v v ≠ 0) : jsCorr v v = 1 := by
  unfold jsCorr
  have hn : ¬(corrN v v = 0) := by
    simp only [corrN, min_self]
    simpa [List.length_eq_zero] using hne
  rw [if_neg hn, corrSyy_self, if_neg (mul_ne_zero hsx hsx), corrNum_self]
  have hpos : 0 < corrSxx v v := lt_of_le_of_ne (corrSxx_nonneg v v) (Ne.symm hsx)
  have hcast : ((corrSxx v v * corrSxx v v : ℚ) : ℝ) =
      ((corrSxx v v : ℚ) : ℝ) * ((corrSxx v v : ℚ) : ℝ) := by push_cast; ring
  rw [hcast, Real.sqrt_mul_self (by exact_mod_cast le_of_lt hpos)]
  exact div_self (by exact_mod_cast hsx)

theorem jsCorr_self_eq_zero (v : List ℚ) (hsx : corrSxx v v = 0) : jsCorr v v = 0 := by
  unfold jsCorr
  by_cases hn : corrN v v = 0
  · rw [if_pos hn]
  · rw [if_neg hn, if_pos (by rw [hsx, zero_mul])]

theorem sampleCov_comm (x y : List ℚ) (hlen : x.length = y.length) :
    sampleCov y x = sampleCov x y := by
  unfold sampleCov
  rw [← hlen]
  congr 1
  calc ((y.zip x).map fun p => (p.1 - listMean y) * (p.2 - listMean x)).sum
      = ((x.zip y).map fun p => (p.2 - listMean y) * (p.1 - listMean x)).sum :=
        zip_sum_swap (fun u v => (u - listMean y) * (v - listMean x)) y x
    _ = ((x.zip y).map fun p => (p.1 - listMean x) * (p.2 - listMean y)).sum :=
        congrArg List.sum (List.map_congr_left fun p _ => by ring)

theorem sampleVar_eq_sq (x : List ℚ) :
    sampleVar x = ((x.map fun a => (a - listMean x) ^ 2).sum) / ((x.length : ℚ) - 1) := by
  unfold sampleVar sampleCov
  rw [zip_self_sum (fun u v => (u - listMean x) * (v - listMean x)) x]
  congr 1
  exact congrArg List.sum (List.map_congr_left fun a _ => by ring)

theorem sampleVar_nonneg (x : List ℚ) : 0 ≤ sampleVar x := by
  rw [sampleVar_eq_sq]
  cases x with
  | nil => simp
  | cons a t =>
      apply div_nonneg
      · exact map_sum_nonneg _ _ fun b => sq_nonneg _
      · have h1 : (1 : ℚ) ≤ ((a :: t).length : ℚ) := by
          exact_mod_cast Nat.succ_le_succ (Nat.zero_le t.length)
        linarith

theorem sampleCov_sq_le (x y : List ℚ) (hlen : x.length = y.length) :
    sampleCov x y ^ 2 ≤ sampleVar x * sampleVar y := by
  have hxy : x.length ≤ y.length := le_of_eq hlen
  have hyx : y.length ≤ x.length := le_of_eq hlen.symm
  have key1 : ((x.zip y).map fun p => (p.1 - listMean x) ^ 2) =
      x.map fun a => (a - listMean x) ^ 2 := by
    rw [show (fun p : ℚ × ℚ => (p.1 - listMean x) ^ 2) =
        ((fun a => (a - listMean x) ^ 2) ∘ Prod.fst) from rfl,
      ← List.map_map, List.map_fst_zip _ _ hxy]
  have key2 : ((x.zip y).map fun p => (p.2 - listMean y) ^ 2) =
      y.map fun b => (b - listMean y) ^ 2 := by
    rw [show (fun p : ℚ × ℚ => (p.2 - listMean y) ^ 2) =
        ((fun b => (b - listMean y) ^ 2) ∘ Prod.snd) from rfl,
      ← List.map_map, List.map_snd_zip _ _ hyx]
  have hS : (((x.zip y).map fun p => (p.1 - listMean x) * (p.2 - listMean y)).sum) ^ 2 ≤
      ((x.map fun a => (a - listMean x) ^ 2).sum) *
        ((y.map fun b => (b - listMean y) ^ 2).sum) := by
    rw [← key1, ← key2]
    have e1 : ((x.zip y).map fun p => (p.1 - listMean x) * (p.2 - listMean y)) =
        (((x.zip y).map fun p => (p.1 - listMean x, p.2 - listMean y)).map
          fun p => p.1 * p.2) := by
      rw [List.map_map]
      rfl
    have e2 : ((x.zip y).map fun p => (p.1 - listMean x) ^ 2) =
        (((x.zip y).map fun p => (p.1 - listMean x, p.2 - listMean y)).map
          fun p => p.1 ^ 2) := by
      rw [List.map_map]
      rfl
    have e3 : ((x.zip y).map fun p => (p.2 - listMean y) ^ 2) =
        (((x.zip y).map fun p => (p.1 - listMean x, p.2 - listMean y)).map
          fun p => p.2 ^ 2) := by
      rw [List.map_map]
      rfl
    rw [e1, e2, e3]
    exact list_cauchy _
  unfold sampleCov
  rw [sampleVar_eq_sq x, sampleVar_eq_sq y, ← hlen, div_pow, div_mul_div_comm,
    ← pow_two ((x.length : ℚ) - 1), div_eq_mul_inv, div_eq_mul_inv]
  exact mul_le_mul_of_nonneg_right hS (inv_nonneg.mpr (sq_nonneg _))

theorem ssSampleCorrelation_comm (x y : List ℚ) :
    ssSampleCorrelation y x = ssSampleCorrelation x y := by
  unfold ssSampleCorrelation
  by_cases hlen : x.length = y.length
  · by_cases h2 : 2 ≤ x.length
    · rw [if_pos (show y.length = x.length ∧ 2 ≤ y.length from ⟨hlen.symm, hlen ▸ h2⟩),
        if_pos (show x.length = y.length ∧ 2 ≤ x.length from ⟨hlen, h2⟩),
        sampleCov_comm x y hlen, mul_comm (sampleVar y) (sampleVar x),
        mul_comm (Real.sqrt ((sampleVar y : ℚ) : ℝ)) (Real.sqrt ((sampleVar x : ℚ) : ℝ))]
    · rw [if_neg (fun h => h2 (hlen.symm ▸ h.2)), if_neg (fun h => h2 h.2)]
  · rw [if_neg (fun h => hlen h.1.symm), if_neg (fun h => hlen h.1)]

theorem ssSampleCorrelation_bounds (x y : List ℚ) (r : ℝ)
    (h : ssSampleCorrelation x y = some r) : -1 ≤ r ∧ r ≤ 1 := by
  unfold ssSampleCorrelation at h
  split_ifs at h with hg hz
  · rw [Option.some_inj] at h
    subst h
    obtain ⟨hlen, h2⟩ := hg
    have hvx : 0 ≤ sampleVar x := sampleVar_nonneg x
    have hvy : 0 ≤ sampleVar y := sampleVar_nonneg y
    have hvxne : sampleVar x ≠ 0 := fun h0 => hz (by rw [h0, zero_mul])
    have hvyne : sampleVar y ≠ 0 := fun h0 => hz (by rw [h0, mul_zero])
    have hPr : (0 : ℝ) < ((sampleVar x * sampleVar y : ℚ) : ℝ) := by
      have hp : 0 < sampleVar x * sampleVar y :=
        mul_pos (lt_of_le_of_ne hvx (Ne.symm hvxne)) (lt_of_le_of_ne hvy (Ne.symm hvyne))
      exact_mod_cast hp
    have hsq : ((sampleCov x y : ℚ) : ℝ) ^ 2 ≤ ((sampleVar x * sampleVar y : ℚ) : ℝ) := by
      exact_mod_cast sampleCov_sq_le x y hlen
    have habs : |((sampleCov x y : ℚ) : ℝ)| ≤
        Real.sqrt ((sampleVar x * sampleVar y : ℚ) : ℝ) := by
      rw [← Real.sqrt_sq_eq_abs]
      exact Real.sqrt_le_sqrt hsq
    have hd : (0 : ℝ) < Real.sqrt ((sampleVar x * sampleVar y : ℚ) : ℝ) :=
      Real.sqrt_pos.mpr hPr
    have hprod : Real.sqrt ((sampleVar x : ℚ) : ℝ) * Real.sqrt ((sampleVar y : ℚ) : ℝ) =
        Real.sqrt ((sampleVar x * sampleVar y : ℚ) : ℝ) := by
      rw [← Real.sqrt_mul (by exact_mod_cast hvx)]
      norm_cast
    rw [hprod]
    obtain ⟨hl, hr⟩ := abs_le.mp habs
    constructor
    · rw [le_div_iff₀ hd]
      linarith
    · rw [div_le_one hd]
      exact hr

theorem ssSampleCorrelation_self (v : List ℚ) (h2 : 2 ≤ v.length) :
    ssSampleCorrelation v v = if sampleVar v = 0 then none else some 1 := by
  unfold ssSampleCorrelation
  rw [if_pos ⟨rfl, h2⟩]
  by_cases hv : sampleVar v = 0
  · rw [if_pos (by rw [hv, zero_mul]), if_pos hv]
  · rw [if_neg (by simp only [mul_self_eq_zero]; exact hv), if_neg hv]
    have hcov : sampleCov v v = sampleVar v := rfl
    rw [hcov, Real.mul_self_sqrt (by exact_mod_cast sampleVar_nonneg v), Option.some_inj]
    have hne : ((sampleVar v : ℚ) : ℝ) ≠ 0 := by exact_mod_cast hv
    exact div_self hne

theorem summEntry_eq (rows : List Row) (cols : List String) (c1 c2 : String) :
    summEntry rows cols c1 c2 =
      if 1 < (colValues rows cols c1).length ∧ 1 < (colValues rows cols c2).length then
        ssSampleCorrelation (colValues rows cols c1) (colValues rows cols c2)
      else some (if c1 = c2 then 1 else 0) := rfl

theorem selEntry_eq (rows : List Row) (cols : List String) (c1 c2 : String) :
    selEntry rows cols c1 c2 =
      if (colValues rows cols c1).isEmpty || (colValues rows cols c2).isEmpty then 0
      else jsCorr (colValues rows cols c1) (colValues rows cols c2) := rfl

theorem summEntry_comm (rows : List Row) (cols : List String) (c1 c2 : String) :
    summEntry rows cols c2 c1 = summEntry rows cols c1 c2 := by
  rw [summEntry_eq rows cols c2 c1, summEntry_eq rows cols c1 c2]
  by_cases hb : 1 < (colValues rows cols c1).length ∧ 1 < (colValues rows cols c2).length
  · rw [if_pos ⟨hb.2, hb.1⟩, if_pos hb,
      ssSampleCorrelation_comm (colValues rows cols c1) (colValues rows cols c2)]
  · rw [if_neg (fun h => hb ⟨h.2, h.1⟩), if_neg hb]
    by_cases he : c1 = c2
    · subst he
      rfl
    · rw [if_neg (fun h => he h.symm), if_neg he]

theorem summEntry_bounds (rows : List Row) (cols : List String) (c1 c2 : String) (r : ℝ)
    (h : summEntry rows cols c1 c2 = some r) : -1 ≤ r ∧ r ≤ 1 := by
  rw [summEntry_eq] at h
  split_ifs at h with hb he
  · exact ssSampleCorrelation_bounds _ _ r h
  · rw [Option.some_inj] at h
    subst h
    norm_num
  · rw [Option.some_inj] at h
    subst h
    norm_num

theorem summEntry_diag (rows : List Row) (cols : List String) (c : String) :
    summEntry rows cols c c = some 1 ∨
      (1 < (colValues rows cols c).length ∧ sampleVar (colValues rows cols c) = 0 ∧
        summEntry rows cols c c = none) := by
  by_cases hb : 1 < (colValues rows cols c).length
  · by_cases hv : sampleVar (colValues rows cols c) = 0
    · right
      refine ⟨hb, hv, ?_⟩
      rw [summEntry_eq, if_pos ⟨hb, hb⟩, ssSampleCorrelation_self _ hb, if_pos hv]
    · left
      rw [summEntry_eq, if_pos ⟨hb, hb⟩, ssSampleCorrelation_self _ hb, if_neg hv]
  · left
    rw [summEntry_eq, if_neg (fun h => hb h.1), if_pos rfl]

theorem selEntry_comm (rows : List Row) (cols : List String) (c1 c2 : String) :
    selEntry rows cols c2 c1 = selEntry rows cols c1 c2 := by
  rw [selEntry_eq rows cols c2 c1, selEntry_eq rows cols c1 c2,
    Bool.or_comm ((colValues rows cols c2).isEmpty) ((colValues rows cols c1).isEmpty),
    jsCorr_comm (colValues rows cols c1) (colValues rows cols c2)]

theorem selEntry_bounds (rows : List Row) (cols : List String) (c1 c2 : String) :
    -1 ≤ selEntry rows cols c1 c2 ∧ selEntry rows cols c1 c2 ≤ 1 := by
  rw [selEntry_eq]
  split_ifs with h
  · norm_num
  · exact jsCorr_bounds _ _

theorem selEntry_diag (rows : List Row) (cols : List String) (c : String) :
    selEntry rows cols c c = 1 ∨ selEntry rows cols c c = 0 := by
  rw [selEntry_eq]
  by_cases he : (colValues rows cols c).isEmpty = true
  · right
    rw [if_pos (by rw [he]; rfl)]
  · rw [if_neg (by rw [Bool.or_self]; exact he)]
    by_cases hsx : corrSxx (colValues rows cols c) (colValues rows cols c) = 0
    · right
      exact jsCorr_self_eq_zero _ hsx
    · left
      refine jsCorr_self_eq_one _ (fun hnil => he (by rw [hnil]; rfl)) hsx

/-- **C7** (claim): for both correlation matrices — the statistical summarizer's
`calculateCorrelationMatrix` (entry model `summEntry`) and the feature selector's
matrix built from `calculateCorrelation` (entry model `selEntry`) — every pair of
column names satisfies `corr(a,b) = corr(b,a)`; every defined summarizer entry and
every selector entry lies in `[-1, 1]`; and the diagonal entry is 1 **except** in
the cases the claim overlooks: the summarizer yields `NaN` (modelled `none`) on a
column with more than one valid value and zero sample variance, and the selector
yields 0 on a column whose filtered value list is empty or has zero centred sum of
squares (e.g. any constant column).  Symmetry and bounds are confirmed; the
"diagonal is always 1 including constant columns" part is refuted
(`c7_diag_counterexample`). -/
theorem c7_correlation_symmetry_bounds_diagonal (rows : List Row) (cols : List String)
    (c1 c2 c : String) :
    summEntry rows cols c2 c1 = summEntry rows cols c1 c2 ∧
    selEntry rows cols c2 c1 = selEntry rows cols c1 c2 ∧
    (∀ r : ℝ, summEntry rows cols c1 c2 = some r → -1 ≤ r ∧ r ≤ 1) ∧
    (-1 ≤ selEntry rows cols c1 c2 ∧ selEntry rows cols c1 c2 ≤ 1) ∧
    (summEntry rows cols c c = some 1 ∨
      (1 < (colValues rows cols c).length ∧ sampleVar (colValues rows cols c) = 0 ∧
        summEntry rows cols c c = none)) ∧
    (selEntry rows cols c c = 1 ∨ selEntry rows cols c c = 0) :=
  ⟨summEntry_comm rows cols c1 c2, selEntry_comm rows cols c1 c2,
    fun r h => summEntry_bounds rows cols c1 c2 r h,
    selEntry_bounds rows cols c1 c2, summEntry_diag rows cols c, selEntry_diag rows cols c⟩

/-- **C7** (counterexample): on the constant numeric column `[1, 1]` the feature
selector's diagonal correlation entry is 0, not 1 (`calculateCorrelation` falls
into its zero-denominator fallback), and the summarizer's diagonal entry is `NaN`
(modelled `none`: `sampleCorrelation` divides the zero covariance by the zero
standard deviations) — refuting the claim's "corr(a,a) == 1 for every numeric
column a (including constant columns)". -/
theorem c7_diag_counterexample :
    selEntry [[Value.num 1], [Value.num 1]] ["a"] "a" "a" = 0 ∧
    summEntry [[Value.num 1], [Value.num 1]] ["a"] "a" "a" = none := by
  have hv : colValues [[Value.num 1], [Value.num 1]] ["a"] "a" = [1, 1] := by decide
  constructor
  · rw [selEntry_eq, hv, if_neg (by decide)]
    unfold jsCorr
    rw [if_neg (by decide : ¬(corrN [1, 1] [1, 1] = 0)),
      if_pos (by decide : corrSxx [1, 1] [1, 1] * corrSyy [1, 1] [1, 1] = 0)]
  · rw [summEntry_eq, hv,
      if_pos (by decide : 1 < ([1, 1] : List ℚ).length ∧ 1 < ([1, 1] : List ℚ).length)]
    unfold ssSampleCorrelation
    rw [if_pos (by decide : ([1, 1] : List ℚ).length = ([1, 1] : List ℚ).length ∧
        2 ≤ ([1, 1] : List ℚ).length),
      if_pos (by decide : sampleVar [1, 1] * sampleVar [1, 1] = 0)]

/-- **C7** (witness): on three rows of the two numeric columns a = [1, 2, 3],
b = [2, 3, 5], the summarizer's diagonal entry for `a` is `some 1` (variance is
nonzero) and that defined entry satisfies the proved bounds. -/
theorem c7_correlation_symmetry_bounds_diagonal_witness :
    summEntry [[Value.num 1, Value.num 2], [Value.num 2, Value.num 3],
      [Value.num 3, Value.num 5]] ["a", "b"] "a" "a" = some 1 ∧
    ((-1 : ℝ) ≤ 1 ∧ (1 : ℝ) ≤ 1) := by
  obtain ⟨hsym, hsel, hbnd, hselb, hdiag, hseld⟩ :=
    c7_correlation_symmetry_bounds_diagonal
      [[Value.num 1, Value.num 2], [Value.num 2, Value.num 3], [Value.num 3, Value.num 5]]
      ["a", "b"] "a" "a" "a"
  rcases hdiag with h1 | ⟨hlen, hvar, hnone⟩
  · exact ⟨h1, hbnd 1 h1⟩
  · exact absurd hvar (by decide)
